import Mathlib

/-! PostgreSQL dialect adapter (`dialect.go`): embedding and properties

Go strings are byte sequences, so they are modelled as lists of bytes.  The
functions of the Go standard library that `dialect.go` calls are transcribed
in the namespaces `utf8`, `unicode`, `strings`, `strconv` and `fmt`; the
functions of `dialect.go` itself follow with their own names.  A run-time
panic of the Go program (slice bound or index out of range) is the value
`none`.  Bytes are written by their code: `0x28` is `(`, `0x3F` is `?`,
`0x2C` is `,` and `0x25` is `%`.
-/

set_option autoImplicit false

/-- A Go `string`: an immutable sequence of bytes, not necessarily valid
UTF-8.  A byte is a natural number (`0 .. 255`), and so is a rune (a Unicode
code point). -/
abbrev GoString := List Nat

namespace utf8

/-- Replacement character `U+FFFD`, produced when decoding invalid input. -/
def RuneError : Nat := 0xFFFD

/-- Bytes below `RuneSelf` stand for themselves in UTF-8. -/
def RuneSelf : Nat := 0x80

/-- Largest valid code point. -/
def MaxRune : Nat := 0x10FFFF

/-- Entry of the table `first` for a lead byte that is neither ASCII nor
invalid: the length of the sequence and the accepted range of its second
byte (`acceptRanges`).  `none` is the entry `xx` of an invalid lead byte. -/
def first (b : Nat) : Option (Nat × Nat × Nat) :=
  if b < 0xC2 then none
  else if b ≤ 0xDF then some (2, 0x80, 0xBF)
  else if b = 0xE0 then some (3, 0xA0, 0xBF)
  else if b ≤ 0xEC then some (3, 0x80, 0xBF)
  else if b = 0xED then some (3, 0x80, 0x9F)
  else if b ≤ 0xEF then some (3, 0x80, 0xBF)
  else if b = 0xF0 then some (4, 0x90, 0xBF)
  else if b ≤ 0xF3 then some (4, 0x80, 0xBF)
  else if b = 0xF4 then some (4, 0x80, 0x8F)
  else none

/-- Go `utf8.DecodeRuneInString`: the first rune of `s` and its width in
bytes; `(RuneError, 1)` on an invalid or truncated sequence and
`(RuneError, 0)` on the empty string. -/
def DecodeRuneInString (s : GoString) : Nat × Nat :=
  match s with
  | [] => (RuneError, 0)
  | s0 :: _ =>
    if s0 < RuneSelf then (s0, 1)
    else
      match first s0 with
      | none => (RuneError, 1)
      | some (sz, lo, hi) =>
        if s.length < sz then (RuneError, 1)
        else
          let s1 := s.getD 1 0
          if s1 < lo ∨ hi < s1 then (RuneError, 1)
          else if sz ≤ 2 then ((s0 % 0x20) * 0x40 + s1 % 0x40, 2)
          else
            let s2 := s.getD 2 0
            if s2 < 0x80 ∨ 0xBF < s2 then (RuneError, 1)
            else if sz ≤ 3 then ((s0 % 0x10) * 0x1000 + (s1 % 0x40) * 0x40 + s2 % 0x40, 3)
            else
              let s3 := s.getD 3 0
              if s3 < 0x80 ∨ 0xBF < s3 then (RuneError, 1)
              else ((s0 % 0x08) * 0x40000 + (s1 % 0x40) * 0x1000 + (s2 % 0x40) * 0x40
                      + s3 % 0x40, 4)

/-- Go `utf8.AppendRune` on an empty buffer: the UTF-8 encoding of `r`;
surrogates and values above `MaxRune` are encoded as `RuneError`. -/
def EncodeRune (r : Nat) : GoString :=
  if r < 0x80 then [r]
  else if r < 0x800 then [0xC0 + r / 0x40, 0x80 + r % 0x40]
  else if MaxRune < r ∨ (0xD800 ≤ r ∧ r ≤ 0xDFFF) then [0xEF, 0xBF, 0xBD]
  else if r < 0x10000 then [0xE0 + r / 0x1000, 0x80 + r / 0x40 % 0x40, 0x80 + r % 0x40]
  else [0xF0 + r / 0x40000, 0x80 + r / 0x1000 % 0x40, 0x80 + r / 0x40 % 0x40, 0x80 + r % 0x40]

/-- The runes visited by `for _, c := range s`: at each index the rune
decoded there, after which the loop advances by its width.  The second
argument counts the bytes still to be skipped of the rune in progress. -/
def rangeRunes : GoString → Nat → List Nat
  | [], _ => []
  | s0 :: t, 0 => (DecodeRuneInString (s0 :: t)).1 :: rangeRunes t ((DecodeRuneInString (s0 :: t)).2 - 1)
  | _ :: t, k + 1 => rangeRunes t k

end utf8

/-- The bytes of a string literal (its UTF-8 encoding, as in Go source text). -/
def str (s : String) : GoString :=
  s.data.flatMap (fun c => utf8.EncodeRune c.toNat)

namespace unicode

/-- The upper-case column of Go's `unicode.CaseRanges` above ASCII: a range
`Lo .. Hi` with the delta that `ToUpper` adds, `none` being the marker
`UpperLower` of an alternating upper/lower sequence.  The table lists the
simple upper-case mappings of the Unicode Character Database (14.0). -/
def CaseRanges : List (Nat × Nat × Option Int) := [
  (0x00B5, 0x00B5, some (743)), (0x00E0, 0x00F6, some (-32)), (0x00F8, 0x00FE, some (-32)),
  (0x00FF, 0x00FF, some (121)), (0x0100, 0x012F, none), (0x0131, 0x0131, some (-232)),
  (0x0132, 0x0137, none), (0x0139, 0x0148, none), (0x014A, 0x0177, none),
  (0x0179, 0x017E, none), (0x017F, 0x017F, some (-300)), (0x0180, 0x0180, some (195)),
  (0x0182, 0x0185, none), (0x0188, 0x0188, some (-1)), (0x018C, 0x018C, some (-1)),
  (0x0192, 0x0192, some (-1)), (0x0195, 0x0195, some (97)), (0x0199, 0x0199, some (-1)),
  (0x019A, 0x019A, some (163)), (0x019E, 0x019E, some (130)), (0x01A0, 0x01A5, none),
  (0x01A8, 0x01A8, some (-1)), (0x01AD, 0x01AD, some (-1)), (0x01B0, 0x01B0, some (-1)),
  (0x01B3, 0x01B6, none), (0x01B9, 0x01B9, some (-1)), (0x01BD, 0x01BD, some (-1)),
  (0x01BF, 0x01BF, some (56)), (0x01C5, 0x01C5, some (-1)), (0x01C6, 0x01C6, some (-2)),
  (0x01C8, 0x01C8, some (-1)), (0x01C9, 0x01C9, some (-2)), (0x01CB, 0x01CB, some (-1)),
  (0x01CC, 0x01CC, some (-2)), (0x01CD, 0x01DC, none), (0x01DD, 0x01DD, some (-79)),
  (0x01DE, 0x01EF, none), (0x01F2, 0x01F2, some (-1)), (0x01F3, 0x01F3, some (-2)),
  (0x01F5, 0x01F5, some (-1)), (0x01F8, 0x021F, none), (0x0222, 0x0233, none),
  (0x023C, 0x023C, some (-1)), (0x023F, 0x0240, some (10815)), (0x0242, 0x0242, some (-1)),
  (0x0246, 0x024F, none), (0x0250, 0x0250, some (10783)), (0x0251, 0x0251, some (10780)),
  (0x0252, 0x0252, some (10782)), (0x0253, 0x0253, some (-210)), (0x0254, 0x0254, some (-206)),
  (0x0256, 0x0257, some (-205)), (0x0259, 0x0259, some (-202)), (0x025B, 0x025B, some (-203)),
  (0x025C, 0x025C, some (42319)), (0x0260, 0x0260, some (-205)), (0x0261, 0x0261, some (42315)),
  (0x0263, 0x0263, some (-207)), (0x0265, 0x0265, some (42280)), (0x0266, 0x0266, some (42308)),
  (0x0268, 0x0268, some (-209)), (0x0269, 0x0269, some (-211)), (0x026A, 0x026A, some (42308)),
  (0x026B, 0x026B, some (10743)), (0x026C, 0x026C, some (42305)), (0x026F, 0x026F, some (-211)),
  (0x0271, 0x0271, some (10749)), (0x0272, 0x0272, some (-213)), (0x0275, 0x0275, some (-214)),
  (0x027D, 0x027D, some (10727)), (0x0280, 0x0280, some (-218)), (0x0282, 0x0282, some (42307)),
  (0x0283, 0x0283, some (-218)), (0x0287, 0x0287, some (42282)), (0x0288, 0x0288, some (-218)),
  (0x0289, 0x0289, some (-69)), (0x028A, 0x028B, some (-217)), (0x028C, 0x028C, some (-71)),
  (0x0292, 0x0292, some (-219)), (0x029D, 0x029D, some (42261)), (0x029E, 0x029E, some (42258)),
  (0x0345, 0x0345, some (84)), (0x0370, 0x0373, none), (0x0377, 0x0377, some (-1)),
  (0x037B, 0x037D, some (130)), (0x03AC, 0x03AC, some (-38)), (0x03AD, 0x03AF, some (-37)),
  (0x03B1, 0x03C1, some (-32)), (0x03C2, 0x03C2, some (-31)), (0x03C3, 0x03CB, some (-32)),
  (0x03CC, 0x03CC, some (-64)), (0x03CD, 0x03CE, some (-63)), (0x03D0, 0x03D0, some (-62)),
  (0x03D1, 0x03D1, some (-57)), (0x03D5, 0x03D5, some (-47)), (0x03D6, 0x03D6, some (-54)),
  (0x03D7, 0x03D7, some (-8)), (0x03D8, 0x03EF, none), (0x03F0, 0x03F0, some (-86)),
  (0x03F1, 0x03F1, some (-80)), (0x03F2, 0x03F2, some (7)), (0x03F3, 0x03F3, some (-116)),
  (0x03F5, 0x03F5, some (-96)), (0x03F8, 0x03F8, some (-1)), (0x03FB, 0x03FB, some (-1)),
  (0x0430, 0x044F, some (-32)), (0x0450, 0x045F, some (-80)), (0x0460, 0x0481, none),
  (0x048A, 0x04BF, none), (0x04C1, 0x04CE, none), (0x04CF, 0x04CF, some (-15)),
  (0x04D0, 0x052F, none), (0x0561, 0x0586, some (-48)), (0x10D0, 0x10FA, some (3008)),
  (0x10FD, 0x10FF, some (3008)), (0x13F8, 0x13FD, some (-8)), (0x1C80, 0x1C80, some (-6254)),
  (0x1C81, 0x1C81, some (-6253)), (0x1C82, 0x1C82, some (-6244)), (0x1C83, 0x1C84, some (-6242)),
  (0x1C85, 0x1C85, some (-6243)), (0x1C86, 0x1C86, some (-6236)), (0x1C87, 0x1C87, some (-6181)),
  (0x1C88, 0x1C88, some (35266)), (0x1D79, 0x1D79, some (35332)), (0x1D7D, 0x1D7D, some (3814)),
  (0x1D8E, 0x1D8E, some (35384)), (0x1E00, 0x1E95, none), (0x1E9B, 0x1E9B, some (-59)),
  (0x1EA0, 0x1EFF, none), (0x1F00, 0x1F07, some (8)), (0x1F10, 0x1F15, some (8)),
  (0x1F20, 0x1F27, some (8)), (0x1F30, 0x1F37, some (8)), (0x1F40, 0x1F45, some (8)),
  (0x1F51, 0x1F51, some (8)), (0x1F53, 0x1F53, some (8)), (0x1F55, 0x1F55, some (8)),
  (0x1F57, 0x1F57, some (8)), (0x1F60, 0x1F67, some (8)), (0x1F70, 0x1F71, some (74)),
  (0x1F72, 0x1F75, some (86)), (0x1F76, 0x1F77, some (100)), (0x1F78, 0x1F79, some (128)),
  (0x1F7A, 0x1F7B, some (112)), (0x1F7C, 0x1F7D, some (126)), (0x1F80, 0x1F87, some (8)),
  (0x1F90, 0x1F97, some (8)), (0x1FA0, 0x1FA7, some (8)), (0x1FB0, 0x1FB1, some (8)),
  (0x1FB3, 0x1FB3, some (9)), (0x1FBE, 0x1FBE, some (-7205)), (0x1FC3, 0x1FC3, some (9)),
  (0x1FD0, 0x1FD1, some (8)), (0x1FE0, 0x1FE1, some (8)), (0x1FE5, 0x1FE5, some (7)),
  (0x1FF3, 0x1FF3, some (9)), (0x214E, 0x214E, some (-28)), (0x2170, 0x217F, some (-16)),
  (0x2184, 0x2184, some (-1)), (0x24D0, 0x24E9, some (-26)), (0x2C30, 0x2C5F, some (-48)),
  (0x2C61, 0x2C61, some (-1)), (0x2C65, 0x2C65, some (-10795)), (0x2C66, 0x2C66, some (-10792)),
  (0x2C67, 0x2C6C, none), (0x2C73, 0x2C73, some (-1)), (0x2C76, 0x2C76, some (-1)),
  (0x2C80, 0x2CE3, none), (0x2CEB, 0x2CEE, none), (0x2CF3, 0x2CF3, some (-1)),
  (0x2D00, 0x2D25, some (-7264)), (0x2D27, 0x2D27, some (-7264)), (0x2D2D, 0x2D2D, some (-7264)),
  (0xA640, 0xA66D, none), (0xA680, 0xA69B, none), (0xA722, 0xA72F, none),
  (0xA732, 0xA76F, none), (0xA779, 0xA77C, none), (0xA77E, 0xA787, none),
  (0xA78C, 0xA78C, some (-1)), (0xA790, 0xA793, none), (0xA794, 0xA794, some (48)),
  (0xA796, 0xA7A9, none), (0xA7B4, 0xA7C3, none), (0xA7C7, 0xA7CA, none),
  (0xA7D1, 0xA7D1, some (-1)), (0xA7D6, 0xA7D9, none), (0xA7F6, 0xA7F6, some (-1)),
  (0xAB53, 0xAB53, some (-928)), (0xAB70, 0xABBF, some (-38864)), (0xFF41, 0xFF5A, some (-32)),
  (0x10428, 0x1044F, some (-40)), (0x104D8, 0x104FB, some (-40)), (0x10597, 0x105A1, some (-39)),
  (0x105A3, 0x105B1, some (-39)), (0x105B3, 0x105B9, some (-39)), (0x105BB, 0x105BC, some (-39)),
  (0x10CC0, 0x10CF2, some (-64)), (0x118C0, 0x118DF, some (-32)), (0x16E60, 0x16E7F, some (-32)),
  (0x1E922, 0x1E943, some (-34))
]

/-- Go `unicode.ToUpper`: ASCII letters directly, other runes through
`CaseRanges`; in an `UpperLower` range the result is
`Lo + ((r - Lo) &^ 1)`. -/
def ToUpper (r : Nat) : Nat :=
  if r ≤ 0x7F then
    if 0x61 ≤ r ∧ r ≤ 0x7A then r - 0x20 else r
  else
    match CaseRanges.find? (fun cr => decide (cr.1 ≤ r ∧ r ≤ cr.2.1)) with
    | none => r
    | some (lo, _, none) => lo + (r - lo) / 2 * 2
    | some (_, _, some delta) => ((r : Int) + delta).toNat

end unicode

namespace strings

/-- Go `strings.Map` for a mapping that drops no rune: every rune of `s` is
mapped and written back in UTF-8 (a byte that is not part of a valid
sequence is read as `RuneError`). -/
def Map (mapping : Nat → Nat) (s : GoString) : GoString :=
  (utf8.rangeRunes s 0).flatMap (fun c => utf8.EncodeRune (mapping c))

/-- The byte written by the ASCII path of `strings.ToUpper`:
`c -= 'a' - 'A'` for a lower-case letter, `c` otherwise. -/
def upperByte (c : Nat) : Nat :=
  if 0x61 ≤ c ∧ c ≤ 0x7A then c - 0x20 else c

/-- Go `strings.ToUpper`: byte-wise on an all-ASCII string, otherwise
`Map(unicode.ToUpper, s)`. -/
def ToUpper (s : GoString) : GoString :=
  if s.all (fun c => decide (c < utf8.RuneSelf)) then s.map upperByte
  else Map unicode.ToUpper s

/-- Go `strings.IndexByte`: index of the first `c` in `s`, or `-1`. -/
def IndexByte : GoString → Nat → Int
  | [], _ => -1
  | b :: t, c => if b = c then 0 else
      let n := IndexByte t c
      if n < 0 then -1 else n + 1

/-- Go `strings.Replace(s, old, new, 1)` for a one-byte `old`: the first
occurrence of `old` is replaced by `new_`; `s` is returned unchanged when
`old` does not occur. -/
def Replace1 : GoString → Nat → GoString → GoString
  | [], _, _ => []
  | b :: t, old, new_ => if b = old then new_ ++ t else b :: Replace1 t old new_

end strings

/-- Go `strings.HasPrefix`. -/
def strings.HasPrefix (s pre : GoString) : Bool :=
  pre.isPrefixOf s

/-- Go `strings.Split(s, sep)` for a one-byte separator: the texts between
the occurrences of `sep`, one more than there are occurrences. -/
def strings.Split : GoString → Nat → List GoString
  | [], _ => [[]]
  | b :: t, sep =>
    if b = sep then [] :: strings.Split t sep
    else
      match strings.Split t sep with
      | [] => [[b]]
      | h :: r => (b :: h) :: r

/-- Go's report of operands that no verb used: `%!(EXTRA string=a, string=b)`. -/
def fmt.extra : List GoString → GoString
  | [] => []
  | a :: as =>
    str "%!(EXTRA string=" ++ a ++ (as.flatMap (fun x => str ", string=" ++ x)) ++ str ")"

/-- Go `fmt.Sprintf` on string operands, for the verbs `%v` and `%s`
without flags (the only ones in the format strings of `dialect.go`) and
`%%`: a verb is replaced by the next operand, or by `%!v(MISSING)` when
none is left, other text is copied, and operands left over are reported at
the end.  Other directives are outside this fragment and are copied. -/
def fmt.Sprintf : GoString → List GoString → GoString
  | [], args => fmt.extra args
  | b :: t, args =>
    if b = 0x25 then
      match t with
      | [] => str "%!(NOVERB)" ++ fmt.extra args
      | c :: t1 =>
        if c = 0x76 ∨ c = 0x73 then -- the verbs v and s
          match args with
          | [] => str "%!" ++ [c] ++ str "(MISSING)" ++ fmt.Sprintf t1 []
          | a :: as => a ++ fmt.Sprintf t1 as
        else if c = 0x25 then 0x25 :: fmt.Sprintf t1 args
        else 0x25 :: c :: fmt.Sprintf t1 args
    else b :: fmt.Sprintf t args

/-- Go `strconv.Itoa` on a non-negative integer: its decimal digits. -/
def strconv.Itoa (n : Nat) : GoString :=
  (Nat.toDigits 10 n).map Char.toNat

/-- Go slice expression `s[:n]`: panics when `n` exceeds `len(s)`. -/
def sliceTo (s : GoString) (n : Nat) : Option GoString :=
  if n ≤ s.length then some (s.take n) else none

/-- Go slice expression `s[n:]`: panics when `n` exceeds `len(s)`. -/
def sliceFrom (s : GoString) (n : Nat) : Option GoString :=
  if n ≤ s.length then some (s.drop n) else none

/-- A bind value (`interface{}`): a Go string, or a value of any other
dynamic type. -/
inductive Value (α : Type) where
  | string (vs : GoString)
  | other (a : α)
deriving DecidableEq

/-- Go constant `dialectQuote`. -/
def dialectQuote : GoString := str "\""

/-- Go `dialectAllowFuncs` (`map[string]bool`), as its list of entries. -/
def dialectAllowFuncs : List (GoString × Bool) := [
  (str "COUNT", true),
  (str "SUM", true),
  (str "LENGTH", true),
  (str "MIN", true),
  (str "MAX", true),
  (str "MOD", true),
  (str "NEXTVAL", true),
  (str "CURRVAL", true),
  (str "SETVAL", true),
  (str "LASTVAL", true)]

/-- Map index expression `dialectAllowFuncs[key]`: `false` for a missing key. -/
def allowFunc (key : GoString) : Bool :=
  (dialectAllowFuncs.lookup key).getD false

/-- Go `dialectStmtBindVarFunc`: the string itself when it is a call of a
whitelisted function, the empty string otherwise. -/
def dialectStmtBindVarFunc {α : Type} (val : Value α) : Option GoString :=
  match val with
  | .string vs =>
    let n := strings.IndexByte vs 0x28
    if n > 0 then do
      let pre ← sliceTo vs n.toNat
      if allowFunc (strings.ToUpper pre) then pure vs else pure []
    else pure []
  | .other _ => pure []

/-- One iteration of the loop of `dialectStmtBindVar` on the state
`(sql, num, rs)`. -/
def bindStep {α : Type} (st : GoString × Nat × List (Value α)) (v : Value α) :
    Option (GoString × Nat × List (Value α)) := do
  let vf ← dialectStmtBindVarFunc v
  if vf ≠ [] then
    pure (strings.Replace1 st.1 0x3F vf, st.2.1, st.2.2)
  else
    let num := st.2.1 + 1
    pure (strings.Replace1 st.1 0x3F (str "$" ++ strconv.Itoa num), num, st.2.2 ++ [v])

/-- The loop `for _, v := range vars` of `dialectStmtBindVar`. -/
def bindLoop {α : Type} : List (Value α) → GoString × Nat × List (Value α) →
    Option (GoString × Nat × List (Value α))
  | [], st => some st
  | v :: vars, st => (bindStep st v).bind (bindLoop vars)

/-- Go `dialectStmtBindVar`: the rewritten statement and the values that
remain parameters. -/
def dialectStmtBindVar {α : Type} (sql : GoString) (vars : List (Value α)) :
    Option (GoString × List (Value α)) :=
  (bindLoop vars (sql, 0, [])).map (fun st => (st.1, st.2.2))

/-- Go `dialectQuoteStr`. -/
def dialectQuoteStr (name : GoString) : Option GoString :=
  if name = str "*" then pure name
  else
    let n := strings.IndexByte name 0x28
    if n > 0 then do
      let upName := strings.ToUpper name
      let pre ← sliceTo upName n.toNat
      if allowFunc pre then pure name else pure (dialectQuote ++ name ++ dialectQuote)
    else pure (dialectQuote ++ name ++ dialectQuote)

/-- The fields of the external `modeler.Column` that `dialect.go` reads and
writes, `Type` and `Length`; `rest` stands for its other fields. -/
structure Column (β : Type) where
  Type_ : GoString
  Length : GoString
  rest : β

/-- Go `dialectColumnTypes` (`map[string]string`), as its list of entries. -/
def dialectColumnTypes : List (GoString × GoString) := [
  (str "bool", str "bool"),
  (str "string", str "varchar(%v)"),
  (str "string-text", str "text"),
  (str "date", str "date"),
  (str "datetime", str "timestamp with time zone"),
  (str "int8", str "smallint"),
  (str "int16", str "smallint"),
  (str "int32", str "integer"),
  (str "int64", str "bigint"),
  (str "uint8", str "smallint"),
  (str "uint16", str "integer"),
  (str "uint32", str "bigint"),
  (str "uint64", str "bigint"),
  (str "float64", str "double precision"),
  (str "float64-decimal", str "numeric(%v, %v)"),
  (str "bytes", str "BYTEA")]

set_option linter.unusedVariables false in
/-- Go `dialectColumnTypeFmt`.  The method `col.Fix()` belongs to the
external modeler and is the parameter `Fix`; since `col` is a pointer, the
column as the call leaves it is returned next to the string. -/
def dialectColumnTypeFmt {β : Type} (Fix : Column β → Column β) (table_name : GoString)
    (col : Column β) : Option (GoString × Column β) :=
  match dialectColumnTypes.lookup col.Type_ with
  | none => some (col.Type_, col)
  | some sql =>
    let col1 := Fix col
    if col1.Type_ = str "string" then
      some (fmt.Sprintf sql [col1.Length], col1)
    else if col1.Type_ = str "float64-decimal" then do
      let lens := strings.Split col1.Length 0x2C
      let l0 ← lens[0]?
      let lens1 := if l0 = [] then lens.set 0 (str "10") else lens
      let lens2 := if lens1.length < 2 then lens1 ++ [str "2"] else lens1
      let a ← lens2[0]?
      let b ← lens2[1]?
      some (fmt.Sprintf sql [a, b], col1)
    else some (sql, col1)

/-- Go `dialectColumnTypeFix`: the column as the call leaves it, `Fix`
being the external `col.Fix()`. -/
def dialectColumnTypeFix {β : Type} (Fix : Column β → Column β) (col : Column β) :
    Option (Column β) := do
  let col1 ←
    if strings.HasPrefix col.Type_ (str "uint") then
      (sliceFrom col.Type_ 1).map (fun t => { col with Type_ := t })
    else some col
  let col2 := if col1.Type_ = str "int8" then { col1 with Type_ := str "int16" } else col1
  some (Fix col2)

/-- Go `dialectStmts` (`map[string]string`), as its list of entries. -/
def dialectStmts : List (GoString × GoString) := [
  (str "insertIgnore", str "INSERT INTO %s (%s) VALUES (%s) ON CONFLICT DO NOTHING")]

/-- Go method `(*Dialect).QuoteStr`; the receiver is not used. -/
def Dialect.QuoteStr (s : GoString) : GoString :=
  dialectQuote ++ s ++ dialectQuote

/-! ## Reading of the claims -/

/-- The text of `s` before its first byte `c` (all of `s` when `c` does not
occur). -/
def textBefore (s : GoString) (c : Nat) : GoString :=
  s.takeWhile (fun b => decide (b ≠ c))

/-- The text of a bind value when it is a string (empty for other values). -/
def valueText {α : Type} : Value α → GoString
  | .string vs => vs
  | .other _ => []

/-- A whitelisted function-call string, in the words of the specification: a
string whose content up to the first opening parenthesis, uppercased, is an
entry of the function whitelist. -/
def isFuncCallText (vs : GoString) : Bool :=
  decide (0x28 ∈ vs) && allowFunc (strings.ToUpper (textBefore vs 0x28))

/-- A bind value that is a whitelisted function-call string. -/
def isFuncCall {α : Type} : Value α → Bool
  | .string vs => isFuncCallText vs
  | .other _ => false

/-- The text that the claims put in place of the marker of the value at
index `i` (counted from 0): the value itself for a function call, otherwise
`$j` with `j` the number of values that are not function calls among
`vars[0..i]`. -/
def markerText {α : Type} (vars : List (Value α)) (i : Nat) : GoString :=
  match vars[i]? with
  | none => []
  | some v =>
    if isFuncCall v then valueText v
    else str "$" ++ strconv.Itoa ((vars.take (i + 1)).countP (fun w => !isFuncCall w))

/-- A template with one marker after each of the texts `segs` and the text
`last` after the final marker. -/
def template (segs : List GoString) (last : GoString) : GoString :=
  segs.flatMap (fun seg => seg ++ str "?") ++ last

/-- The text written at a marker for the value `v` when `num` parameters
have been numbered so far. -/
def stepText {α : Type} (num : Nat) (v : Value α) : GoString :=
  if isFuncCall v then valueText v else str "$" ++ strconv.Itoa (num + 1)

/-- The parameter counter after the value `v`. -/
def stepNum {α : Type} (num : Nat) (v : Value α) : Nat :=
  if isFuncCall v then num else num + 1

/-- The statement after the loop has run over `vars`, starting with `num`
numbered parameters. -/
def loopSql {α : Type} : List (Value α) → Nat → GoString → GoString
  | [], _, sql => sql
  | v :: vars, num, sql => loopSql vars (stepNum num v) (strings.Replace1 sql 0x3F (stepText num v))

/-- The texts written for `vars`, in order, starting with `num` numbered
parameters. -/
def stepTexts {α : Type} : List (Value α) → Nat → List GoString
  | [], _ => []
  | v :: vars, num => stepText num v :: stepTexts vars (stepNum num v)

/-- The precision that the decimal path writes for the length specifier
`L`: the text before the first comma, `10` when that text is empty. -/
def decimalPrecision (L : GoString) : GoString :=
  if textBefore L 0x2C = [] then str "10" else textBefore L 0x2C

/-- The scale that the decimal path writes for the length specifier `L`:
the text between the first and the second comma (or up to the end), `2` when
`L` has no comma. -/
def decimalScale (L : GoString) : GoString :=
  if 0x2C ∈ L then textBefore (L.drop ((textBefore L 0x2C).length + 1)) 0x2C else str "2"

/-- The signed type name that each unsigned type name is compared with: the
next-larger width for `uint8`, `uint16`, `uint32`, the same width for
`uint64`. -/
def signedOf : List (GoString × GoString) := [
  (str "uint8", str "int16"),
  (str "uint16", str "int32"),
  (str "uint32", str "int64"),
  (str "uint64", str "int64")]

/-- Two bind values that the claims take to be alike for the statement:
both are the same whitelisted function-call string, or neither is a
function-call string (they may then differ). -/
def sqlAlike {α : Type} (a b : Value α) : Prop :=
  (isFuncCall a = true ∧ a = b) ∨ (isFuncCall a = false ∧ isFuncCall b = false)

/-! ## Lemmas on the library functions -/

theorem str_qmark : str "?" = [0x3F] := by decide

theorem str_dollar : str "$" = [0x24] := by decide

theorem allowFunc_nil : allowFunc [] = false := by decide

theorem ToUpper_nil : strings.ToUpper [] = [] := by decide

theorem IndexByte_spec (s : GoString) (c : Nat) :
    (c ∉ s ∧ strings.IndexByte s c = -1) ∨
    (c ∈ s ∧ strings.IndexByte s c = ((textBefore s c).length : Int)) := by
  induction s with
  | nil => left; simp [strings.IndexByte]
  | cons b t ih =>
    by_cases hb : b = c
    · right; subst hb; simp [strings.IndexByte, textBefore]
    · rcases ih with ⟨h1, h2⟩ | ⟨h1, h2⟩
      · left
        refine ⟨by simp [h1, Ne.symm hb], ?_⟩
        simp [strings.IndexByte, hb, h2]
      · right
        refine ⟨by simp [h1], ?_⟩
        simp only [textBefore] at h2
        simp [strings.IndexByte, hb, h2, textBefore]

theorem sliceTo_textBefore (s : GoString) (c : Nat) :
    sliceTo s (textBefore s c).length = some (textBefore s c) := by
  have hpre : textBefore s c <+: s := List.takeWhile_prefix _
  have hle : (textBefore s c).length ≤ s.length := hpre.length_le
  simp only [sliceTo, hle, if_true]
  congr 1
  exact List.prefix_iff_eq_take.mp hpre |>.symm

/-- The binder's test returns the value itself exactly for the function-call
strings of the specification, and the empty string otherwise; the slice
`vs[:n]` never panics. -/
theorem dialectStmtBindVarFunc_eq {α : Type} (v : Value α) :
    dialectStmtBindVarFunc v = some (if isFuncCall v then valueText v else []) := by
  cases v with
  | other a => simp [dialectStmtBindVarFunc, isFuncCall]
  | string vs =>
    rcases IndexByte_spec vs 0x28 with ⟨h1, h2⟩ | ⟨h1, h2⟩
    · simp [dialectStmtBindVarFunc, isFuncCall, isFuncCallText, h1, h2]
    · by_cases h0 : textBefore vs 0x28 = []
      · simp [dialectStmtBindVarFunc, isFuncCall, isFuncCallText, h1, h2, h0, ToUpper_nil,
          allowFunc_nil]
      · have hpos : 0 < (textBefore vs 0x28).length := List.length_pos.mpr h0
        simp only [dialectStmtBindVarFunc, isFuncCall, isFuncCallText, h1, h2, valueText]
        simp only [gt_iff_lt, Nat.cast_pos, hpos, if_true, Int.toNat_ofNat, sliceTo_textBefore]
        by_cases hf : allowFunc (strings.ToUpper (textBefore vs 0x28)) = true
        · simp [hf]
        · simp [hf]

theorem isFuncCall_text_ne_nil {α : Type} (v : Value α) (h : isFuncCall v = true) :
    valueText v ≠ [] := by
  cases v with
  | other a => simp [isFuncCall] at h
  | string vs =>
    simp only [isFuncCall, isFuncCallText, Bool.and_eq_true, decide_eq_true_eq] at h
    intro h0
    simp only [valueText] at h0
    rw [h0] at h
    simp at h

theorem bindStep_eq {α : Type} (st : GoString × Nat × List (Value α)) (v : Value α) :
    bindStep st v = some (strings.Replace1 st.1 0x3F (stepText st.2.1 v), stepNum st.2.1 v,
      st.2.2 ++ (if isFuncCall v then [] else [v])) := by
  by_cases h : isFuncCall v = true
  · have hne := isFuncCall_text_ne_nil v h
    simp [bindStep, dialectStmtBindVarFunc_eq, h, hne, stepText, stepNum]
  · simp [bindStep, dialectStmtBindVarFunc_eq, h, stepText, stepNum]

theorem bindLoop_eq {α : Type} (vars : List (Value α)) (sql : GoString) (num : Nat)
    (rs : List (Value α)) :
    bindLoop vars (sql, num, rs) = some (loopSql vars num sql,
      num + vars.countP (fun w => !isFuncCall w), rs ++ vars.filter (fun w => !isFuncCall w)) := by
  induction vars generalizing sql num rs with
  | nil => simp [bindLoop, loopSql]
  | cons v vars ih =>
    simp only [bindLoop, bindStep_eq, Option.some_bind, ih, loopSql]
    by_cases h : isFuncCall v = true
    · simp [h, stepNum]
    · simp [h, stepNum]
      omega

/-- The binder never panics; its statement is the one computed by the loop
and its parameter list is the list of values that are not function calls. -/
theorem dialectStmtBindVar_eq {α : Type} (sql : GoString) (vars : List (Value α)) :
    dialectStmtBindVar sql vars =
      some (loopSql vars 0 sql, vars.filter (fun w => !isFuncCall w)) := by
  simp [dialectStmtBindVar, bindLoop_eq]

theorem Replace1_append_of_not_mem (p b new_ : GoString) (old : Nat) (h : old ∉ p) :
    strings.Replace1 (p ++ b) old new_ = p ++ strings.Replace1 b old new_ := by
  induction p with
  | nil => rfl
  | cons c p ih =>
    have hc : c ≠ old := fun e => h (by simp [e])
    have hp : old ∉ p := fun e => h (by simp [e])
    simp [strings.Replace1, hc, ih hp]

theorem Replace1_marker (p b new_ : GoString) (old : Nat) (h : old ∉ p) :
    strings.Replace1 (p ++ old :: b) old new_ = p ++ new_ ++ b := by
  rw [Replace1_append_of_not_mem p _ new_ old h]
  simp [strings.Replace1]

theorem loopSql_append_of_not_mem {α : Type} (vars : List (Value α)) (num : Nat)
    (p b : GoString) (h : 0x3F ∉ p) :
    loopSql vars num (p ++ b) = p ++ loopSql vars num b := by
  induction vars generalizing num b with
  | nil => rfl
  | cons v vars ih =>
    simp only [loopSql]
    rw [Replace1_append_of_not_mem p b _ _ h, ih]

theorem digitChar_ne_qmark (n : Nat) : (Nat.digitChar (n % 10)).toNat ≠ 0x3F := by
  have h : ∀ d, d < 10 → (Nat.digitChar d).toNat ≠ 0x3F := by decide
  exact h _ (Nat.mod_lt _ (by decide))

theorem toDigitsCore_not_mem (fuel n : Nat) (acc : List Char)
    (h : ∀ c ∈ acc, c.toNat ≠ 0x3F) :
    ∀ c ∈ Nat.toDigitsCore 10 fuel n acc, c.toNat ≠ 0x3F := by
  induction fuel generalizing n acc with
  | zero => simpa [Nat.toDigitsCore] using h
  | succ fuel ih =>
    have hcons : ∀ c ∈ Nat.digitChar (n % 10) :: acc, c.toNat ≠ 0x3F := by
      intro c hc
      rcases List.mem_cons.mp hc with e | e
      · rw [e]; exact digitChar_ne_qmark n
      · exact h c e
    unfold Nat.toDigitsCore
    simp only
    split
    · exact hcons
    · exact ih _ _ hcons

theorem Itoa_not_mem (n : Nat) : 0x3F ∉ strconv.Itoa n := by
  intro hmem
  obtain ⟨c, hc, he⟩ := List.mem_map.mp hmem
  exact toDigitsCore_not_mem _ _ [] (by simp) c hc he

theorem stepText_not_mem {α : Type} (num : Nat) (v : Value α)
    (h : isFuncCall v = true → 0x3F ∉ valueText v) : 0x3F ∉ stepText num v := by
  unfold stepText
  split
  · rename_i hf
    exact h hf
  · rw [str_dollar]
    simp only [List.cons_append, List.nil_append, List.mem_cons, not_or]
    exact ⟨by decide, Itoa_not_mem _⟩

theorem template_cons (seg : GoString) (segs : List GoString) (last : GoString) :
    template (seg :: segs) last = seg ++ 0x3F :: template segs last := by
  simp [template, str_qmark]

/-- Every statement is a template: its markers split it into the texts in
front of them and the text after the last one, none of which has a marker. -/
theorem template_of_count (sql : GoString) :
    ∃ segs last, sql = template segs last ∧ segs.length = sql.count 0x3F ∧
      (∀ seg ∈ segs, 0x3F ∉ seg) ∧ 0x3F ∉ last := by
  induction sql with
  | nil => exact ⟨[], [], by simp [template], by simp, by simp, by simp⟩
  | cons b t ih =>
    obtain ⟨segs, last, h1, h2, h3, h4⟩ := ih
    by_cases hb : b = 0x3F
    · refine ⟨[] :: segs, last, ?_, ?_, ?_, h4⟩
      · rw [template_cons, ← h1, hb]; rfl
      · simp [hb, h2]
      · intro seg hseg
        rcases List.mem_cons.mp hseg with h | h
        · simp [h]
        · exact h3 seg h
    · cases segs with
      | nil =>
        refine ⟨[], b :: last, ?_, ?_, by simp, ?_⟩
        · rw [h1]; simp [template]
        · simpa [List.count_cons, hb] using h2
        · simp only [List.mem_cons, not_or]
          exact ⟨Ne.symm hb, h4⟩
      | cons seg segs =>
        refine ⟨(b :: seg) :: segs, last, ?_, ?_, ?_, h4⟩
        · rw [h1, template_cons, template_cons]; rfl
        · simpa [List.count_cons, hb] using h2
        · intro x hx
          rcases List.mem_cons.mp hx with h | h
          · rw [h]
            simp only [List.mem_cons, not_or]
            exact ⟨Ne.symm hb, h3 seg (by simp)⟩
          · exact h3 x (by simp [h])

theorem loopSql_template {α : Type} (segs : List GoString) (last : GoString)
    (vars : List (Value α)) (num : Nat) (hlen : segs.length = vars.length)
    (hsegs : ∀ seg ∈ segs, 0x3F ∉ seg)
    (hfun : ∀ v ∈ vars.dropLast, isFuncCall v = true → 0x3F ∉ valueText v) :
    loopSql vars num (template segs last) =
      (List.zipWith (fun seg txt => seg ++ txt) segs (stepTexts vars num)).flatten ++ last := by
  induction segs generalizing vars num with
  | nil =>
    cases vars with
    | nil => simp [loopSql, template, stepTexts]
    | cons v vars => simp at hlen
  | cons seg segs ih =>
    cases vars with
    | nil => simp at hlen
    | cons v vars =>
      have hseg : 0x3F ∉ seg := hsegs seg (by simp)
      have hsegs1 : ∀ s ∈ segs, 0x3F ∉ s := fun s hs => hsegs s (by simp [hs])
      have hlen1 : segs.length = vars.length := by simpa using hlen
      rw [template_cons]
      simp only [loopSql, stepTexts, List.zipWith_cons_cons, List.flatten_cons]
      rw [Replace1_marker seg _ _ _ hseg]
      cases vars with
      | nil =>
        cases segs with
        | nil => simp [loopSql, template, stepTexts]
        | cons s segs => simp at hlen1
      | cons w vars =>
        have hv : 0x3F ∉ stepText num v :=
          stepText_not_mem num v (hfun v (by simp [List.dropLast]))
        have hp : 0x3F ∉ seg ++ stepText num v := by
          simp only [List.mem_append, not_or]
          exact ⟨hseg, hv⟩
        rw [loopSql_append_of_not_mem _ _ _ _ hp]
        rw [ih (w :: vars) _ hlen1 hsegs1
          (fun u hu hf => hfun u (by simp only [List.dropLast_cons₂, List.mem_cons]; exact Or.inr hu) hf)]
        simp [List.append_assoc]

theorem stepTexts_eq {α : Type} (vars : List (Value α)) (num : Nat) :
    stepTexts vars num = (List.range vars.length).map (fun i =>
      match vars[i]? with
      | none => []
      | some v =>
        if isFuncCall v then valueText v
        else str "$" ++ strconv.Itoa (num + (vars.take (i + 1)).countP (fun w => !isFuncCall w))) := by
  induction vars generalizing num with
  | nil => simp [stepTexts]
  | cons v vars ih =>
    rw [List.length_cons, List.range_succ_eq_map, List.map_cons, List.map_map, stepTexts, ih]
    congr 1
    · by_cases hf : isFuncCall v = true
      · simp [stepText, hf]
      · simp [stepText, hf]
    · apply List.map_congr_left
      intro i _
      simp only [Function.comp, List.getElem?_cons_succ, List.take_succ_cons, List.countP_cons]
      by_cases hf : isFuncCall v = true
      · simp [stepNum, hf]
      · simp [stepNum, hf]
        cases vars[i]? with
        | none => rfl
        | some u =>
          simp only
          split
          · rfl
          · congr 2
            omega

theorem stepTexts_zero {α : Type} (vars : List (Value α)) :
    stepTexts vars 0 = (List.range vars.length).map (markerText vars) := by
  rw [stepTexts_eq]
  apply List.map_congr_left
  intro i _
  simp [markerText]

theorem stepTexts_plain {α : Type} (vars : List (Value α)) (num : Nat)
    (hplain : ∀ v ∈ vars, isFuncCall v = false) :
    stepTexts vars num =
      (List.range vars.length).map (fun i => str "$" ++ strconv.Itoa (num + i + 1)) := by
  induction vars generalizing num with
  | nil => simp [stepTexts]
  | cons v vars ih =>
    have hv : isFuncCall v = false := hplain v (by simp)
    rw [List.length_cons, List.range_succ_eq_map, List.map_cons, List.map_map, stepTexts,
      ih _ (fun u hu => hplain u (by simp [hu]))]
    congr 1
    · simp [stepText, hv]
    · apply List.map_congr_left
      intro i _
      simp only [Function.comp, stepNum, hv]
      congr 2
      simp only [Bool.false_eq_true, if_false]
      omega

theorem isFuncCall_eq_false_iff {α : Type} (v : Value α) :
    isFuncCall v = false ↔ dialectStmtBindVarFunc v = some [] := by
  rw [dialectStmtBindVarFunc_eq]
  by_cases hf : isFuncCall v = true
  · have hne := isFuncCall_text_ne_nil v hf
    simp [hf, hne]
  · simp [hf]

/-! ## Placeholder binder: the claims -/

/-- C1 (as amended): for a template whose `?` markers are matched one to one
by the bind values (`segs` are the texts in front of the markers, `last` the
text after them), where no function-call value that is followed by another
value contains `?`, the statement returned by `dialectStmtBindVar` is the
template with its i-th marker replaced by the text of the i-th value (the
value itself for a whitelisted function call, otherwise `$j` with `j` the
number of non-function values among the first i) and all other text
unchanged. -/
theorem dialectStmtBindVar_markers {α : Type} (segs : List GoString) (last : GoString)
    (vars : List (Value α)) (hlen : segs.length = vars.length)
    (hsegs : ∀ seg ∈ segs, 0x3F ∉ seg)
    (hfun : ∀ v ∈ vars.dropLast, isFuncCall v = true → 0x3F ∉ valueText v) :
    (dialectStmtBindVar (template segs last) vars).map Prod.fst =
      some ((List.zipWith (fun seg i => seg ++ markerText vars i) segs
        (List.range vars.length)).flatten ++ last) := by
  rw [dialectStmtBindVar_eq, Option.map_some', loopSql_template segs last vars 0 hlen hsegs hfun,
    stepTexts_zero, List.zipWith_map_right]

/-- C1 at the input of the specification: `"a = ? AND b = ?"` with the values
`[5, "NEXTVAL(seq)"]` gives `"a = $1 AND b = NEXTVAL(seq)"`. -/
theorem dialectStmtBindVar_markers_witness :
    (dialectStmtBindVar (str "a = ? AND b = ?")
        [Value.other 5, Value.string (str "NEXTVAL(seq)")]).map Prod.fst =
      some (str "a = $1 AND b = NEXTVAL(seq)") :=
  dialectStmtBindVar_markers [str "a = ", str " AND b = "] (str "")
    [Value.other 5, Value.string (str "NEXTVAL(seq)")] (by decide) (by decide) (by decide)

/-- C1 as stated fails when a function-call value contains `?`: on the
template `"? ?"` with the values `["COUNT(?)", 5]` the second replacement
hits the `?` inside the text written for the first value, so the result is
`"COUNT($1) ?"` and not `"COUNT(?) $1"`. -/
theorem dialectStmtBindVar_markers_counterexample :
    template [str "", str " "] (str "") = str "? ?" ∧
    (str "? ?").count 0x3F = [Value.string (str "COUNT(?)"), Value.other 5].length ∧
    isFuncCall (Value.string (str "COUNT(?)") : Value Nat) = true ∧
    (dialectStmtBindVar (str "? ?") [Value.string (str "COUNT(?)"), Value.other 5]).map Prod.fst
      = some (str "COUNT($1) ?") ∧
    (List.zipWith (fun seg i => seg ++ markerText [Value.string (str "COUNT(?)"), Value.other 5] i)
        [str "", str " "] (List.range 2)).flatten ++ str "" = str "COUNT(?) $1" ∧
    str "COUNT($1) ?" ≠ str "COUNT(?) $1" := by
  decide

/-- C2: the parameter list returned by `dialectStmtBindVar` is the sub-list,
in the original order, of the values for which `dialectStmtBindVarFunc`
returns the empty string, whatever the template; a value that is not a
string is always such a value. -/
theorem dialectStmtBindVar_params {α : Type} (sql : GoString) (vars : List (Value α)) :
    (dialectStmtBindVar sql vars).map Prod.snd =
      some (vars.filter (fun v => decide (dialectStmtBindVarFunc v = some []))) ∧
    ∀ a : α, dialectStmtBindVarFunc (Value.other a) = some [] := by
  refine ⟨?_, fun a => rfl⟩
  rw [dialectStmtBindVar_eq, Option.map_some']
  congr 1
  apply List.filter_congr
  intro v _
  by_cases hf : isFuncCall v = true
  · have h : ¬ dialectStmtBindVarFunc v = some [] := by
      rw [← isFuncCall_eq_false_iff]; simp [hf]
    simp [hf, h]
  · have h : dialectStmtBindVarFunc v = some [] := by
      rw [← isFuncCall_eq_false_iff]; simpa using hf
    simp [hf, h]

/-- C3: a template whose `k` markers are bound with `k` values none of which
is a whitelisted function-call string comes back with its i-th marker
replaced by `$i` (i = 1..k), and the parameter list is the list of input
values (`segs` are the texts in front of the markers, `last` the text after
them). -/
theorem dialectStmtBindVar_plain {α : Type} (segs : List GoString) (last : GoString)
    (vars : List (Value α)) (hlen : segs.length = vars.length)
    (hsegs : ∀ seg ∈ segs, 0x3F ∉ seg)
    (hplain : ∀ v ∈ vars, dialectStmtBindVarFunc v = some []) :
    dialectStmtBindVar (template segs last) vars =
      some ((List.zipWith (fun seg i => seg ++ (str "$" ++ strconv.Itoa (i + 1))) segs
        (List.range vars.length)).flatten ++ last, vars) := by
  have hp : ∀ v ∈ vars, isFuncCall v = false :=
    fun v hv => (isFuncCall_eq_false_iff v).mpr (hplain v hv)
  rw [dialectStmtBindVar_eq,
    loopSql_template segs last vars 0 hlen hsegs
      (fun v hv hf => by simp [hp v (List.mem_of_mem_dropLast hv)] at hf),
    stepTexts_plain vars 0 hp, List.zipWith_map_right]
  have hfilter : vars.filter (fun w => !isFuncCall w) = vars := by
    apply List.filter_eq_self.mpr
    intro v hv
    simp [hp v hv]
  rw [hfilter]
  simp

/-- C3 at three markers and three plain values: the markers become `$1`,
`$2`, `$3` and the three values are returned as parameters. -/
theorem dialectStmtBindVar_plain_witness :
    dialectStmtBindVar (str "f(?, ?, ?)")
        [Value.other 7, Value.string (str "x"), Value.other 9] =
      some (str "f($1, $2, $3)", [Value.other 7, Value.string (str "x"), Value.other 9]) :=
  dialectStmtBindVar_plain [str "f(", str ", ", str ", "] (str ")")
    [Value.other 7, Value.string (str "x"), Value.other 9] (by decide) (by decide) (by decide)

/-! ## Type name resolver -/

theorem Split_eq (s : GoString) (sep : Nat) :
    strings.Split s sep = textBefore s sep ::
      (if sep ∈ s then strings.Split (s.drop ((textBefore s sep).length + 1)) sep else []) := by
  induction s with
  | nil => simp [strings.Split, textBefore]
  | cons b t ih =>
    by_cases hb : b = sep
    · subst hb
      simp [strings.Split, textBefore]
    · have hmem : (sep ∈ b :: t) ↔ sep ∈ t := by
        simp [Ne.symm hb]
      have htb : textBefore (b :: t) sep = b :: textBefore t sep := by
        simp [textBefore, hb]
      rw [strings.Split, if_neg hb, ih, htb]
      simp only [hmem, List.length_cons, List.drop_succ_cons]

theorem Sprintf_varchar (a : GoString) :
    fmt.Sprintf (str "varchar(%v)") [a] = str "varchar(" ++ a ++ str ")" := by
  have h : fmt.Sprintf (str "varchar(%v)") [a] = str "varchar(" ++ (a ++ str ")") := rfl
  rw [h, List.append_assoc]

theorem Sprintf_numeric (a b : GoString) :
    fmt.Sprintf (str "numeric(%v, %v)") [a, b] =
      str "numeric(" ++ a ++ str ", " ++ b ++ str ")" := by
  have h : fmt.Sprintf (str "numeric(%v, %v)") [a, b] =
      str "numeric(" ++ (a ++ (str ", " ++ (b ++ str ")"))) := rfl
  rw [h]
  simp only [List.append_assoc]

/-- C7: for the type `float64-decimal` and any length specifier `L`, with a
`col.Fix()` that leaves `Type` and `Length` unchanged, the resolver returns
`numeric(P, S)` with `P` the text of `L` before its first comma (`10` when
empty) and `S` the text between the first and second comma or up to the end
of `L` (`2` when `L` has no comma). -/
theorem dialectColumnTypeFmt_decimal {β : Type} (Fix : Column β → Column β)
    (hFix : ∀ c, (Fix c).Type_ = c.Type_ ∧ (Fix c).Length = c.Length)
    (table_name : GoString) (col : Column β) (hType : col.Type_ = str "float64-decimal") :
    (dialectColumnTypeFmt Fix table_name col).map Prod.fst =
      some (str "numeric(" ++ decimalPrecision col.Length ++ str ", " ++
        decimalScale col.Length ++ str ")") := by
  have hlook : dialectColumnTypes.lookup (str "float64-decimal") = some (str "numeric(%v, %v)") := by
    decide
  have hne : str "float64-decimal" ≠ str "string" := by decide
  have hT := (hFix col).1
  have hL := (hFix col).2
  unfold dialectColumnTypeFmt
  rw [hType, hlook]
  simp only [hT, hL, hType, hne, if_false, if_true]
  by_cases hc : 0x2C ∈ col.Length
  · obtain ⟨tl, htl⟩ : ∃ tl, strings.Split col.Length 0x2C =
        textBefore col.Length 0x2C ::
          textBefore (col.Length.drop ((textBefore col.Length 0x2C).length + 1)) 0x2C :: tl := by
      rw [Split_eq, if_pos hc, Split_eq (List.drop _ _)]
      exact ⟨_, rfl⟩
    rw [htl]
    have hlen : ¬ (tl.length + 1 + 1 < 2) := by omega
    by_cases h0 : textBefore col.Length 0x2C = []
    · simp [h0, hc, hlen, decimalPrecision, decimalScale, Sprintf_numeric]
    · simp [h0, hc, hlen, decimalPrecision, decimalScale, Sprintf_numeric]
  · have htl : strings.Split col.Length 0x2C = [textBefore col.Length 0x2C] := by
      rw [Split_eq, if_neg hc]
    rw [htl]
    by_cases h0 : textBefore col.Length 0x2C = []
    · simp [h0, hc, decimalPrecision, decimalScale, Sprintf_numeric]
    · simp [h0, hc, decimalPrecision, decimalScale, Sprintf_numeric]

/-- C7 at the length specifiers of the specification: `""` gives
`numeric(10, 2)`, `"12"` gives `numeric(12, 2)` and `",4"` gives
`numeric(10, 4)`. -/
theorem dialectColumnTypeFmt_decimal_witness :
    (dialectColumnTypeFmt id (str "t")
        (⟨str "float64-decimal", str "", ()⟩ : Column Unit)).map Prod.fst =
      some (str "numeric(10, 2)") ∧
    (dialectColumnTypeFmt id (str "t")
        (⟨str "float64-decimal", str "12", ()⟩ : Column Unit)).map Prod.fst =
      some (str "numeric(12, 2)") ∧
    (dialectColumnTypeFmt id (str "t")
        (⟨str "float64-decimal", str ",4", ()⟩ : Column Unit)).map Prod.fst =
      some (str "numeric(10, 4)") :=
  ⟨dialectColumnTypeFmt_decimal id (fun _ => ⟨rfl, rfl⟩) (str "t") ⟨_, str "", ()⟩ rfl,
   dialectColumnTypeFmt_decimal id (fun _ => ⟨rfl, rfl⟩) (str "t") ⟨_, str "12", ()⟩ rfl,
   dialectColumnTypeFmt_decimal id (fun _ => ⟨rfl, rfl⟩) (str "t") ⟨_, str ",4", ()⟩ rfl⟩

theorem lookup_eq_none_of_not_mem (k : GoString) (l : List (GoString × GoString))
    (h : k ∉ l.map Prod.fst) : l.lookup k = none := by
  induction l with
  | nil => rfl
  | cons e l ih =>
    obtain ⟨a, b⟩ := e
    simp only [List.map_cons, List.mem_cons, not_or] at h
    have hne : (k == a) = false := by simpa using h.1
    simp only [List.lookup, hne]
    exact ih h.2

/-- C8: a column whose type name is not a key of `dialectColumnTypes` gets
its type name back unchanged, whatever its length specifier, and the column
is left as it was: `col.Fix()`, whatever it does, is not called. -/
theorem dialectColumnTypeFmt_unknown {β : Type} (Fix : Column β → Column β)
    (table_name : GoString) (col : Column β)
    (h : col.Type_ ∉ dialectColumnTypes.map Prod.fst) :
    dialectColumnTypeFmt Fix table_name col = some (col.Type_, col) := by
  unfold dialectColumnTypeFmt
  rw [lookup_eq_none_of_not_mem _ _ h]

/-- C8 at the type name `jsonb`, with a `Fix` that would rewrite both
fields if it were called. -/
theorem dialectColumnTypeFmt_unknown_witness :
    dialectColumnTypeFmt (fun _ => ⟨str "string", str "1", ()⟩) (str "t")
        (⟨str "jsonb", str "64", ()⟩ : Column Unit) =
      some (str "jsonb", ⟨str "jsonb", str "64", ()⟩) :=
  dialectColumnTypeFmt_unknown (fun _ => ⟨str "string", str "1", ()⟩) (str "t")
    ⟨str "jsonb", str "64", ()⟩ (by decide)

/-- C9: for the type `string` and any length specifier `L`, with a
`col.Fix()` that leaves `Type` and `Length` unchanged, the resolver returns
exactly `varchar(L)`; `L` is not validated. -/
theorem dialectColumnTypeFmt_string {β : Type} (Fix : Column β → Column β)
    (hFix : ∀ c, (Fix c).Type_ = c.Type_ ∧ (Fix c).Length = c.Length)
    (table_name : GoString) (col : Column β) (hType : col.Type_ = str "string") :
    (dialectColumnTypeFmt Fix table_name col).map Prod.fst =
      some (str "varchar(" ++ col.Length ++ str ")") := by
  have hlook : dialectColumnTypes.lookup (str "string") = some (str "varchar(%v)") := by decide
  unfold dialectColumnTypeFmt
  rw [hType, hlook]
  simp [(hFix col).1, (hFix col).2, hType, Sprintf_varchar]

/-- C9 at the length specifiers `255` and `x,y`. -/
theorem dialectColumnTypeFmt_string_witness :
    (dialectColumnTypeFmt id (str "t") (⟨str "string", str "255", ()⟩ : Column Unit)).map
        Prod.fst = some (str "varchar(255)") ∧
    (dialectColumnTypeFmt id (str "t") (⟨str "string", str "x,y", ()⟩ : Column Unit)).map
        Prod.fst = some (str "varchar(x,y)") :=
  ⟨dialectColumnTypeFmt_string id (fun _ => ⟨rfl, rfl⟩) (str "t") ⟨_, str "255", ()⟩ rfl,
   dialectColumnTypeFmt_string id (fun _ => ⟨rfl, rfl⟩) (str "t") ⟨_, str "x,y", ()⟩ rfl⟩

/-- A type name whose table entry is returned as it stands: with a
`col.Fix()` that leaves `Type` unchanged, the resolver returns the entry
`sql` of `name` when `name` is neither `string` nor `float64-decimal`. -/
theorem dialectColumnTypeFmt_plain {β : Type} (Fix : Column β → Column β)
    (hFix : ∀ c, (Fix c).Type_ = c.Type_) (table_name : GoString) (col : Column β)
    (sql : GoString) (hlook : dialectColumnTypes.lookup col.Type_ = some sql)
    (h1 : col.Type_ ≠ str "string") (h2 : col.Type_ ≠ str "float64-decimal") :
    (dialectColumnTypeFmt Fix table_name col).map Prod.fst = some sql := by
  unfold dialectColumnTypeFmt
  rw [hlook]
  simp [hFix col, h1, h2]

theorem dialectColumnTypeFmt_same_entry {β : Type} (Fix : Column β → Column β)
    (hFix : ∀ c, (Fix c).Type_ = c.Type_) (table_name : GoString) (col : Column β)
    (u s sql : GoString) (hu : col.Type_ = u)
    (hlu : dialectColumnTypes.lookup u = some sql) (hls : dialectColumnTypes.lookup s = some sql)
    (hu1 : u ≠ str "string") (hu2 : u ≠ str "float64-decimal")
    (hs1 : s ≠ str "string") (hs2 : s ≠ str "float64-decimal") :
    (dialectColumnTypeFmt Fix table_name col).map Prod.fst =
      (dialectColumnTypeFmt Fix table_name { col with Type_ := s }).map Prod.fst ∧
    (dialectColumnTypeFmt Fix table_name col).map Prod.fst = dialectColumnTypes.lookup s ∧
    (dialectColumnTypes.lookup s).isSome = true := by
  subst hu
  rw [dialectColumnTypeFmt_plain Fix hFix table_name col sql hlu hu1 hu2,
    dialectColumnTypeFmt_plain Fix hFix table_name { col with Type_ := s } sql hls hs1 hs2, hls]
  simp

/-- C10: with a `col.Fix()` that leaves `Type` unchanged, a column of an
unsigned integer type (`uint8`, `uint16`, `uint32`, `uint64`) resolves to the
SQL type of the same column with the signed type of the next-larger width
(`int16`, `int32`, `int64`), or of the same width for `uint64` (`int64`); in
particular `uint8` resolves as `int16`. -/
theorem dialectColumnTypeFmt_unsigned {β : Type} (Fix : Column β → Column β)
    (hFix : ∀ c, (Fix c).Type_ = c.Type_) (table_name : GoString) (col : Column β)
    (signed : GoString) (h : (col.Type_, signed) ∈ signedOf) :
    (dialectColumnTypeFmt Fix table_name col).map Prod.fst =
      (dialectColumnTypeFmt Fix table_name { col with Type_ := signed }).map Prod.fst ∧
    (dialectColumnTypeFmt Fix table_name col).map Prod.fst =
      dialectColumnTypes.lookup signed ∧
    (dialectColumnTypes.lookup signed).isSome = true := by
  simp only [signedOf, List.mem_cons, Prod.mk.injEq, List.mem_singleton, List.not_mem_nil,
    or_false] at h
  rcases h with ⟨hu, hs⟩ | ⟨hu, hs⟩ | ⟨hu, hs⟩ | ⟨hu, hs⟩
  · subst hs
    exact dialectColumnTypeFmt_same_entry Fix hFix table_name col _ _ (str "smallint") hu
      (by decide) (by decide) (by decide) (by decide) (by decide) (by decide)
  · subst hs
    exact dialectColumnTypeFmt_same_entry Fix hFix table_name col _ _ (str "integer") hu
      (by decide) (by decide) (by decide) (by decide) (by decide) (by decide)
  · subst hs
    exact dialectColumnTypeFmt_same_entry Fix hFix table_name col _ _ (str "bigint") hu
      (by decide) (by decide) (by decide) (by decide) (by decide) (by decide)
  · subst hs
    exact dialectColumnTypeFmt_same_entry Fix hFix table_name col _ _ (str "bigint") hu
      (by decide) (by decide) (by decide) (by decide) (by decide) (by decide)

/-- C10 at `uint8`: it resolves like `int16`, to `smallint`. -/
theorem dialectColumnTypeFmt_unsigned_witness :
    (dialectColumnTypeFmt id (str "t") (⟨str "uint8", str "", ()⟩ : Column Unit)).map Prod.fst =
      (dialectColumnTypeFmt id (str "t") (⟨str "int16", str "", ()⟩ : Column Unit)).map Prod.fst ∧
    (dialectColumnTypeFmt id (str "t") (⟨str "uint8", str "", ()⟩ : Column Unit)).map Prod.fst =
      some (str "smallint") ∧
    (dialectColumnTypes.lookup (str "int16")).isSome = true :=
  dialectColumnTypeFmt_unsigned id (fun _ => rfl) (str "t") ⟨str "uint8", str "", ()⟩
    (str "int16") (by decide)

/-! ## Identifier quoter -/

theorem upperByte_lt (b : Nat) (h : b < 0x80) : strings.upperByte b < 0x80 := by
  unfold strings.upperByte
  split <;> omega

theorem unicode_ToUpper_ascii (b : Nat) (h : b < 0x80) :
    unicode.ToUpper b = strings.upperByte b := by
  have h1 : b ≤ 0x7F := by omega
  simp only [unicode.ToUpper, strings.upperByte, h1, if_true]

theorem rangeRunes_ascii_append (p rest : GoString) (hp : ∀ b ∈ p, b < 0x80) :
    utf8.rangeRunes (p ++ rest) 0 = p ++ utf8.rangeRunes rest 0 := by
  induction p with
  | nil => rfl
  | cons b p ih =>
    have hb : b < utf8.RuneSelf := hp b (by simp)
    have hd : utf8.DecodeRuneInString (b :: (p ++ rest)) = (b, 1) := by
      simp [utf8.DecodeRuneInString, hb]
    rw [List.cons_append, utf8.rangeRunes, hd]
    simp only [Nat.sub_self, List.cons_append, List.cons.injEq, true_and]
    exact ih (fun c hc => hp c (by simp [hc]))

theorem flatMap_encode_ascii (p : GoString) (hp : ∀ b ∈ p, b < 0x80) :
    p.flatMap (fun c => utf8.EncodeRune (unicode.ToUpper c)) = p.map strings.upperByte := by
  induction p with
  | nil => rfl
  | cons b p ih =>
    have hb : b < 0x80 := hp b (by simp)
    have hu := upperByte_lt b hb
    rw [List.flatMap_cons, List.map_cons, ih (fun c hc => hp c (by simp [hc])),
      unicode_ToUpper_ascii b hb]
    simp [utf8.EncodeRune, hu]

theorem Map_ascii_append (p rest : GoString) (hp : ∀ b ∈ p, b < 0x80) :
    strings.Map unicode.ToUpper (p ++ rest) =
      p.map strings.upperByte ++ strings.Map unicode.ToUpper rest := by
  unfold strings.Map
  rw [rangeRunes_ascii_append p rest hp, List.flatMap_append, flatMap_encode_ascii p hp]

/-- Upper-casing goes through an ASCII prefix byte by byte and leaves its
length unchanged, whatever follows. -/
theorem ToUpper_ascii_append (p rest : GoString) (hp : ∀ b ∈ p, b < 0x80) :
    strings.ToUpper (p ++ rest) = p.map strings.upperByte ++ strings.ToUpper rest := by
  have hall : p.all (fun c => decide (c < utf8.RuneSelf)) = true := by
    simpa [utf8.RuneSelf] using hp
  unfold strings.ToUpper
  rw [List.all_append, hall, Bool.true_and]
  by_cases hr : rest.all (fun c => decide (c < utf8.RuneSelf)) = true
  · simp [hr]
  · simp only [hr, if_false, Bool.false_eq_true]
    exact Map_ascii_append p rest hp

theorem ToUpper_ascii (p : GoString) (hp : ∀ b ∈ p, b < 0x80) :
    strings.ToUpper p = p.map strings.upperByte := by
  have h := ToUpper_ascii_append p [] hp
  simpa [ToUpper_nil] using h

theorem textBefore_append_drop (s : GoString) (c : Nat) :
    textBefore s c ++ s.drop (textBefore s c).length = s := by
  have hpre : textBefore s c <+: s := List.takeWhile_prefix _
  have h := List.prefix_iff_eq_take.mp hpre
  have h1 := List.take_append_drop (textBefore s c).length s
  rw [← h] at h1
  exact h1

/-- The quoter on a name whose text before the first `(` is ASCII: it
returns, without panic, `*` for `*`, the name itself for a call of a
whitelisted function in the sense of the specification, and the name in
quotes otherwise. -/
theorem dialectQuoteStr_ascii_before_paren (name : GoString)
    (hp : ∀ b ∈ textBefore name 0x28, b < 0x80) :
    dialectQuoteStr name = some (
      if name = str "*" then name
      else if isFuncCallText name then name
      else dialectQuote ++ name ++ dialectQuote) := by
  unfold dialectQuoteStr
  by_cases hstar : name = str "*"
  · simp [hstar]
  · simp only [hstar, if_false]
    rcases IndexByte_spec name 0x28 with ⟨h1, h2⟩ | ⟨h1, h2⟩
    · simp [isFuncCallText, h1, h2]
    · by_cases h0 : textBefore name 0x28 = []
      · simp [isFuncCallText, h1, h2, h0, ToUpper_nil, allowFunc_nil]
      · have hpos : 0 < (textBefore name 0x28).length := List.length_pos.mpr h0
        have hup : strings.ToUpper name =
            (textBefore name 0x28).map strings.upperByte ++
              strings.ToUpper (name.drop (textBefore name 0x28).length) := by
          conv_lhs => rw [← textBefore_append_drop name 0x28]
          exact ToUpper_ascii_append _ _ hp
        have hslice : sliceTo (strings.ToUpper name) (textBefore name 0x28).length =
            some (strings.ToUpper (textBefore name 0x28)) := by
          rw [hup, ToUpper_ascii _ hp]
          simp [sliceTo]
        simp only [h2, gt_iff_lt, Nat.cast_pos, hpos, if_true, Int.toNat_ofNat, hslice,
          isFuncCallText, h1]
        by_cases hf : allowFunc (strings.ToUpper (textBefore name 0x28)) = true
        · simp [hf]
        · simp [hf]

/-- C4 at the name `mın(x)` (with U+0131, dotless i, two bytes in UTF-8):
the text before the parenthesis uppercases to `MIN`, which is whitelisted,
and the binder's test accepts the same string; but the quoter slices the
uppercased name `MIN(X)` at the byte index 4 of the parenthesis in the
original name, looks up `MIN(`, and returns the name in quotes. -/
theorem dialectQuoteStr_dotless_min :
    0x28 ∈ str "mın(x)" ∧
    strings.ToUpper (textBefore (str "mın(x)") 0x28) = str "MIN" ∧
    allowFunc (str "MIN") = true ∧
    dialectStmtBindVarFunc (Value.string (str "mın(x)") : Value Unit) = some (str "mın(x)") ∧
    strings.IndexByte (str "mın(x)") 0x28 = 4 ∧
    strings.ToUpper (str "mın(x)") = str "MIN(X)" ∧
    sliceTo (str "MIN(X)") 4 = some (str "MIN(") ∧
    dialectQuoteStr (str "mın(x)") = some (str "\"mın(x)\"") ∧
    str "\"mın(x)\"" ≠ str "mın(x)" := by
  decide

/-- C5 at the names `*` and `ſſ(` (with U+017F, long s, two bytes in
UTF-8): `*` is returned unchanged; `ſſ(` is not `*` and its text before the
parenthesis uppercases to `SS`, which is not whitelisted, but the quoter
returns nothing: the uppercased name `SS(` has three bytes and is sliced at
index 4. -/
theorem dialectQuoteStr_long_s :
    dialectQuoteStr (str "*") = some (str "*") ∧
    str "ſſ(" ≠ str "*" ∧
    strings.ToUpper (textBefore (str "ſſ(") 0x28) = str "SS" ∧
    allowFunc (str "SS") = false ∧
    dialectQuoteStr (str "ſſ(") = none := by
  decide

/-- C6 at the name `ıı(` (bytes `C4 B1 C4 B1 28`): the parenthesis is at
byte index 4, the uppercased name `II(` has three bytes, the slice
`upName[:4]` is out of range and `dialectQuoteStr` panics. -/
theorem dialectQuoteStr_slice_out_of_range :
    str "ıı(" = [0xC4, 0xB1, 0xC4, 0xB1, 0x28] ∧
    strings.IndexByte (str "ıı(") 0x28 = 4 ∧
    strings.ToUpper (str "ıı(") = str "II(" ∧
    (str "II(").length = 3 ∧
    sliceTo (strings.ToUpper (str "ıı(")) 4 = none ∧
    dialectQuoteStr (str "ıı(") = none := by
  decide

/-! ## Type normalization -/

theorem str_uint : str "uint" = [0x75, 0x69, 0x6E, 0x74] := by decide

theorem str_int : str "int" = [0x69, 0x6E, 0x74] := by decide

theorem str_int8 : str "int8" = [0x69, 0x6E, 0x74, 0x38] := by decide

theorem str_int16 : str "int16" = [0x69, 0x6E, 0x74, 0x31, 0x36] := by decide

theorem str_8 : str "8" = [0x38] := by decide

theorem HasPrefix_iff (s pre : GoString) :
    strings.HasPrefix s pre = true ↔ ∃ rest, s = pre ++ rest := by
  unfold strings.HasPrefix
  rw [List.isPrefixOf_iff_prefix]
  constructor
  · rintro ⟨rest, h⟩
    exact ⟨rest, h.symm⟩
  · rintro ⟨rest, h⟩
    exact ⟨rest, h.symm⟩

/-- The normalization on a type name with the prefix `uint`: the slice
`col.Type[1:]` is in range and the `u` is dropped; `int8` then becomes
`int16`. -/
theorem dialectColumnTypeFix_uint {β : Type} (Fix : Column β → Column β) (col : Column β)
    (rest : GoString) (h : col.Type_ = str "uint" ++ rest) :
    dialectColumnTypeFix Fix col = some (Fix { col with
      Type_ := if rest = str "8" then str "int16" else str "int" ++ rest }) := by
  have hpre : strings.HasPrefix col.Type_ (str "uint") = true :=
    (HasPrefix_iff _ _).mpr ⟨rest, h⟩
  have hslice : sliceFrom col.Type_ 1 = some (str "int" ++ rest) := by
    rw [h, str_uint, str_int]
    simp [sliceFrom]
  have h8 : (str "int" ++ rest = str "int8") ↔ rest = str "8" := by
    rw [str_int, str_int8, str_8]
    simp
  unfold dialectColumnTypeFix
  simp only [hpre, if_true, hslice, Option.map_some', Option.bind_eq_bind, Option.some_bind, h8]
  by_cases hr : rest = str "8"
  · simp [hr]
  · simp [hr]

/-- The normalization on a type name without the prefix `uint`: only `int8`
is rewritten, to `int16`. -/
theorem dialectColumnTypeFix_other {β : Type} (Fix : Column β → Column β) (col : Column β)
    (h : strings.HasPrefix col.Type_ (str "uint") = false) :
    dialectColumnTypeFix Fix col = some (Fix { col with
      Type_ := if col.Type_ = str "int8" then str "int16" else col.Type_ }) := by
  unfold dialectColumnTypeFix
  simp only [h, Bool.false_eq_true, if_false, Option.bind_eq_bind, Option.some_bind]
  by_cases h8 : col.Type_ = str "int8"
  · simp [h8]
  · simp [h8]

theorem not_HasPrefix_uint_int (rest : GoString) :
    strings.HasPrefix (str "int" ++ rest) (str "uint") = false := by
  rw [Bool.eq_false_iff]
  intro hp
  obtain ⟨r, hr⟩ := (HasPrefix_iff _ _).mp hp
  rw [str_int, str_uint] at hr
  simp at hr

/-- C12: the type rewriting of `dialectColumnTypeFix`, after which the
external `col.Fix()` is called on the column: a type name `uint` + rest
becomes `int` + rest (`uint16` to `int16`, `uint32` to `int32`, `uint64` to
`int64`), except that the `int8` so obtained from `uint8` becomes `int16`;
`int8` becomes `int16`; any other type name is unchanged; `Length` and the
other fields are not touched. -/
theorem dialectColumnTypeFix_rewriting {β : Type} (Fix : Column β → Column β)
    (col : Column β) :
    ∃ t, dialectColumnTypeFix Fix col = some (Fix { col with Type_ := t }) ∧
      (∀ rest, col.Type_ = str "uint" ++ rest →
        t = if rest = str "8" then str "int16" else str "int" ++ rest) ∧
      (col.Type_ = str "int8" → t = str "int16") ∧
      (strings.HasPrefix col.Type_ (str "uint") = false → col.Type_ ≠ str "int8" →
        t = col.Type_) := by
  by_cases hpre : strings.HasPrefix col.Type_ (str "uint") = true
  · obtain ⟨rest, hrest⟩ := (HasPrefix_iff _ _).mp hpre
    refine ⟨_, dialectColumnTypeFix_uint Fix col rest hrest, ?_, ?_, ?_⟩
    · intro rest1 h1
      have : rest1 = rest := List.append_cancel_left (h1.symm.trans hrest)
      rw [this]
    · intro h8
      rw [h8, str_int8, str_uint] at hrest
      simp at hrest
    · intro hf
      rw [hpre] at hf
      simp at hf
  · have hf : strings.HasPrefix col.Type_ (str "uint") = false := by simpa using hpre
    refine ⟨_, dialectColumnTypeFix_other Fix col hf, ?_, ?_, ?_⟩
    · intro rest h1
      exact absurd ((HasPrefix_iff _ _).mpr ⟨rest, h1⟩) hpre
    · intro h8
      simp [h8]
    · intro _ h8
      simp [h8]

/-- The rewriting at the integer type names and at a name it leaves alone
(`Fix` is the identity, so the column shown is the column before
`col.Fix()`). -/
theorem dialectColumnTypeFix_examples :
    (dialectColumnTypeFix id (⟨str "uint8", str "3", ()⟩ : Column Unit)).map
      (fun c => (c.Type_, c.Length)) = some (str "int16", str "3") ∧
    (dialectColumnTypeFix id (⟨str "uint16", str "", ()⟩ : Column Unit)).map
      (fun c => (c.Type_, c.Length)) = some (str "int16", str "") ∧
    (dialectColumnTypeFix id (⟨str "uint32", str "", ()⟩ : Column Unit)).map
      (fun c => (c.Type_, c.Length)) = some (str "int32", str "") ∧
    (dialectColumnTypeFix id (⟨str "uint64", str "", ()⟩ : Column Unit)).map
      (fun c => (c.Type_, c.Length)) = some (str "int64", str "") ∧
    (dialectColumnTypeFix id (⟨str "int8", str "", ()⟩ : Column Unit)).map
      (fun c => (c.Type_, c.Length)) = some (str "int16", str "") ∧
    (dialectColumnTypeFix id (⟨str "string", str "20", ()⟩ : Column Unit)).map
      (fun c => (c.Type_, c.Length)) = some (str "string", str "20") := by
  decide

/-- C19: after the type rewriting of `dialectColumnTypeFix` (the column
before `col.Fix()`, here with the identity for `Fix`) the type name never
begins with `uint` and is never `int8`, and rewriting the result again
changes nothing. -/
theorem dialectColumnTypeFix_idempotent {β : Type} (col : Column β) :
    ∃ col1, dialectColumnTypeFix id col = some col1 ∧
      strings.HasPrefix col1.Type_ (str "uint") = false ∧
      col1.Type_ ≠ str "int8" ∧
      dialectColumnTypeFix id col1 = some col1 := by
  have key : ∀ c : Column β, strings.HasPrefix c.Type_ (str "uint") = false →
      c.Type_ ≠ str "int8" → dialectColumnTypeFix id c = some c := by
    intro c h1 h2
    rw [dialectColumnTypeFix_other id c h1]
    simp [h2]
  have h16 : strings.HasPrefix (str "int16") (str "uint") = false := by decide
  have hne : str "int16" ≠ str "int8" := by decide
  by_cases hpre : strings.HasPrefix col.Type_ (str "uint") = true
  · obtain ⟨rest, hrest⟩ := (HasPrefix_iff _ _).mp hpre
    rw [dialectColumnTypeFix_uint id col rest hrest]
    by_cases hr : rest = str "8"
    · refine ⟨_, rfl, ?_, ?_, ?_⟩
      · simpa [hr] using h16
      · simpa [hr] using hne
      · apply key
        · simpa [hr] using h16
        · simpa [hr] using hne
    · have h8 : str "int" ++ rest ≠ str "int8" := by
        rw [str_int, str_int8]
        rw [str_8] at hr
        simpa using hr
      refine ⟨_, rfl, ?_, ?_, ?_⟩
      · simpa [hr] using not_HasPrefix_uint_int rest
      · simpa [hr] using h8
      · apply key
        · simpa [hr] using not_HasPrefix_uint_int rest
        · simpa [hr] using h8
  · have hf : strings.HasPrefix col.Type_ (str "uint") = false := by simpa using hpre
    rw [dialectColumnTypeFix_other id col hf]
    by_cases h8 : col.Type_ = str "int8"
    · refine ⟨_, rfl, ?_, ?_, ?_⟩
      · simpa [h8] using h16
      · simpa [h8] using hne
      · apply key
        · simpa [h8] using h16
        · simpa [h8] using hne
    · refine ⟨_, rfl, ?_, ?_, ?_⟩
      · simpa [h8] using hf
      · simp [h8]
      · apply key
        · simpa [h8] using hf
        · simp [h8]

/-- C11 (as amended): `dialectColumnTypeFmt` looks the type name up as it is
given; for a `col.Fix()` that leaves `Type` unchanged it returns the same
string for a column and for the column after the type rewriting of
`dialectColumnTypeFix` when the type name does not begin with `uint` (so
`int8` resolves as `int16`) or is `uint8` or `uint64` (`uint8` resolves as
`int16`, `uint64` as `int64`). -/
theorem dialectColumnTypeFmt_after_rewriting {β : Type} (Fix : Column β → Column β)
    (hFix : ∀ c, (Fix c).Type_ = c.Type_) (table_name : GoString) (col col1 : Column β)
    (hcol : strings.HasPrefix col.Type_ (str "uint") = false ∨ col.Type_ = str "uint8" ∨
      col.Type_ = str "uint64")
    (h1 : dialectColumnTypeFix id col = some col1) :
    (dialectColumnTypeFmt Fix table_name col).map Prod.fst =
      (dialectColumnTypeFmt Fix table_name col1).map Prod.fst := by
  rcases hcol with hf | h8 | h64
  · rw [dialectColumnTypeFix_other id col hf] at h1
    by_cases hi : col.Type_ = str "int8"
    · simp only [hi, if_true, id, Option.some.injEq] at h1
      rw [← h1]
      exact (dialectColumnTypeFmt_same_entry Fix hFix table_name col _ (str "int16")
        (str "smallint") hi (by decide) (by decide) (by decide) (by decide) (by decide)
        (by decide)).1
    · simp only [hi, if_false, id, Option.some.injEq] at h1
      rw [← h1]
  · have hu : col.Type_ = str "uint" ++ str "8" := by rw [h8]; decide
    rw [dialectColumnTypeFix_uint id col _ hu] at h1
    simp only [if_true, id, Option.some.injEq] at h1
    rw [← h1]
    exact (dialectColumnTypeFmt_same_entry Fix hFix table_name col _ (str "int16")
      (str "smallint") h8 (by decide) (by decide) (by decide) (by decide) (by decide)
      (by decide)).1
  · have hu : col.Type_ = str "uint" ++ str "64" := by rw [h64]; decide
    have hne : str "64" ≠ str "8" := by decide
    have h64s : str "int" ++ str "64" = str "int64" := by decide
    rw [dialectColumnTypeFix_uint id col _ hu] at h1
    simp only [hne, if_false, id, Option.some.injEq, h64s] at h1
    rw [← h1]
    exact (dialectColumnTypeFmt_same_entry Fix hFix table_name col _ (str "int64")
      (str "bigint") h64 (by decide) (by decide) (by decide) (by decide) (by decide)
      (by decide)).1

/-- C11 at `uint8`: the column and the rewritten column, of type `int16`,
both resolve to `smallint`. -/
theorem dialectColumnTypeFmt_after_rewriting_witness :
    (dialectColumnTypeFmt id (str "t") (⟨str "uint8", str "", ()⟩ : Column Unit)).map Prod.fst =
      (dialectColumnTypeFmt id (str "t") (⟨str "int16", str "", ()⟩ : Column Unit)).map
        Prod.fst :=
  dialectColumnTypeFmt_after_rewriting id (fun _ => rfl) (str "t") ⟨str "uint8", str "", ()⟩
    ⟨str "int16", str "", ()⟩ (Or.inr (Or.inl rfl)) rfl

/-- C11 as stated fails at `uint16`: the resolver does not normalize the
type name before the lookup, so `uint16` resolves to `integer`, while the
rewritten column has the type `int16`, which resolves to `smallint`. -/
theorem dialectColumnTypeFmt_after_rewriting_counterexample :
    (dialectColumnTypeFix id (⟨str "uint16", str "", ()⟩ : Column Unit)).map
      (fun c => (c.Type_, c.Length)) = some (str "int16", str "") ∧
    (dialectColumnTypeFmt id (str "t") (⟨str "uint16", str "", ()⟩ : Column Unit)).map Prod.fst =
      some (str "integer") ∧
    (dialectColumnTypeFmt id (str "t") (⟨str "int16", str "", ()⟩ : Column Unit)).map Prod.fst =
      some (str "smallint") ∧
    str "integer" ≠ str "smallint" := by
  decide

theorem Split_ne_nil (s : GoString) (sep : Nat) : strings.Split s sep ≠ [] := by
  rw [Split_eq]
  simp

/-- C13: `dialectColumnTypeFmt` returns a string for every type name and
every length specifier, whatever the external `col.Fix()` does to the
column: splitting on `,` gives at least one element, and after the append
of `2` the list has at least two, so `lens[0]` and `lens[1]` are in range. -/
theorem dialectColumnTypeFmt_total {β : Type} (Fix : Column β → Column β)
    (table_name : GoString) (col : Column β) :
    (∃ sql col1, dialectColumnTypeFmt Fix table_name col = some (sql, col1)) ∧
    (∀ L : GoString, 1 ≤ (strings.Split L 0x2C).length) ∧
    (∀ L : GoString, 2 ≤ (if (strings.Split L 0x2C).length < 2
        then strings.Split L 0x2C ++ [str "2"] else strings.Split L 0x2C).length) := by
  refine ⟨?_, ?_, ?_⟩
  · unfold dialectColumnTypeFmt
    cases dialectColumnTypes.lookup col.Type_ with
    | none => exact ⟨_, _, rfl⟩
    | some sql =>
      simp only
      by_cases hs : (Fix col).Type_ = str "string"
      · rw [if_pos hs]
        exact ⟨_, _, rfl⟩
      · rw [if_neg hs]
        by_cases hd : (Fix col).Type_ = str "float64-decimal"
        · rw [if_pos hd]
          obtain ⟨p, tl, hsplit⟩ : ∃ p tl, strings.Split (Fix col).Length 0x2C = p :: tl := by
            rw [Split_eq]
            exact ⟨_, _, rfl⟩
          rw [hsplit]
          cases tl with
          | nil =>
            by_cases hp : p = []
            · simp [hp]
            · simp [hp]
          | cons x tl =>
            have hlen : ¬ (tl.length + 1 + 1 < 2) := by omega
            by_cases hp : p = []
            · simp [hp, hlen]
            · simp [hp, hlen]
        · rw [if_neg hd]
          exact ⟨_, _, rfl⟩
  · intro L
    exact List.length_pos.mpr (Split_ne_nil L 0x2C)
  · intro L
    have h := List.length_pos.mpr (Split_ne_nil L 0x2C)
    split
    · rw [List.length_append]
      simp only [List.length_singleton]
      omega
    · omega

theorem Sprintf_insertIgnore (t c v : GoString) :
    fmt.Sprintf (str "INSERT INTO %s (%s) VALUES (%s) ON CONFLICT DO NOTHING") [t, c, v] =
      str "INSERT INTO " ++ t ++ str " (" ++ c ++ str ") VALUES (" ++ v ++
        str ") ON CONFLICT DO NOTHING" := by
  have h : fmt.Sprintf (str "INSERT INTO %s (%s) VALUES (%s) ON CONFLICT DO NOTHING")
      [t, c, v] = str "INSERT INTO " ++ (t ++ (str " (" ++ (c ++ (str ") VALUES (" ++ (v ++
        str ") ON CONFLICT DO NOTHING"))))) := rfl
  rw [h]
  simp only [List.append_assoc]

/-- C14: the entry `insertIgnore` of `dialectStmts`, formatted with a table
name `t`, a column list `c` and a value list `v`, is exactly
`INSERT INTO t (c) VALUES (v) ON CONFLICT DO NOTHING`, which contains
`ON CONFLICT DO NOTHING`. -/
theorem dialectStmts_insertIgnore (t c v : GoString) :
    ∃ tmpl, dialectStmts.lookup (str "insertIgnore") = some tmpl ∧
      fmt.Sprintf tmpl [t, c, v] =
        str "INSERT INTO " ++ t ++ str " (" ++ c ++ str ") VALUES (" ++ v ++
          str ") ON CONFLICT DO NOTHING" ∧
      str "ON CONFLICT DO NOTHING" <:+: fmt.Sprintf tmpl [t, c, v] := by
  refine ⟨str "INSERT INTO %s (%s) VALUES (%s) ON CONFLICT DO NOTHING", by decide,
    Sprintf_insertIgnore t c v, ?_⟩
  rw [Sprintf_insertIgnore]
  have hsplit : str ") ON CONFLICT DO NOTHING" = str ") " ++ str "ON CONFLICT DO NOTHING" := by
    decide
  rw [hsplit, ← List.append_assoc]
  exact (List.suffix_append _ _).isInfix

/-! ## The adapter's quoting method and the two function-call tests -/

theorem quoted_ne_self (s : GoString) : dialectQuote ++ s ++ dialectQuote ≠ s := by
  intro h
  have hlen := congrArg List.length h
  have hq : dialectQuote.length = 1 := by decide
  simp only [List.length_append, hq] at hlen
  omega

/-- What `dialectQuoteStr` can do with a name: return it in quotes, return
it unchanged, or panic. -/
theorem dialectQuoteStr_cases (name : GoString) :
    dialectQuoteStr name = some (dialectQuote ++ name ++ dialectQuote) ∨
    dialectQuoteStr name = some name ∨ dialectQuoteStr name = none := by
  unfold dialectQuoteStr
  by_cases hstar : name = str "*"
  · right; left
    simp [hstar]
  · simp only [hstar, if_false]
    by_cases hn : strings.IndexByte name 0x28 > 0
    · simp only [hn, if_true]
      cases sliceTo (strings.ToUpper name) (strings.IndexByte name 0x28).toNat with
      | none => right; right; rfl
      | some pre =>
        by_cases hf : allowFunc pre = true
        · right; left
          simp [hf]
        · left
          simp [hf]
    · left
      simp [hn]

/-- C15 (as amended): the method `Dialect.QuoteStr` wraps every string in
the double-quote character on both sides, without exception, so it never
returns its argument unchanged; it gives the result of `dialectQuoteStr`
exactly where `dialectQuoteStr` quotes the name, that is, unless
`dialectQuoteStr` returns the name unchanged or panics. -/
theorem Dialect_QuoteStr_always_quotes (s : GoString) :
    Dialect.QuoteStr s = str "\"" ++ s ++ str "\"" ∧
    Dialect.QuoteStr s ≠ s ∧
    (dialectQuoteStr s = some (Dialect.QuoteStr s) ∨ dialectQuoteStr s = some s ∨
      dialectQuoteStr s = none) :=
  ⟨rfl, quoted_ne_self s, dialectQuoteStr_cases s⟩

/-- C15 as stated fails at `*` and at `COUNT(x)`: `dialectQuoteStr` returns
both unchanged, `Dialect.QuoteStr` returns them in quotes. -/
theorem Dialect_QuoteStr_counterexample :
    Dialect.QuoteStr (str "*") = str "\"*\"" ∧
    dialectQuoteStr (str "*") = some (str "*") ∧
    str "\"*\"" ≠ str "*" ∧
    Dialect.QuoteStr (str "COUNT(x)") = str "\"COUNT(x)\"" ∧
    dialectQuoteStr (str "COUNT(x)") = some (str "COUNT(x)") ∧
    str "\"COUNT(x)\"" ≠ str "COUNT(x)" := by
  decide

/-! ## Upper-casing across an opening parenthesis -/

theorem first_spec (b sz lo hi : Nat) (h : utf8.first b = some (sz, lo, hi)) :
    (sz = 2 ∨ sz = 3 ∨ sz = 4) ∧ 0x80 ≤ lo := by
  unfold utf8.first at h
  split_ifs at h <;> simp at h <;> omega

/-- Decoding at a position does not look past an ASCII byte: such a byte is
never a continuation byte, and a sequence that it cuts short is as invalid
as a truncated one. -/
theorem DecodeRuneInString_append_ascii (s0 : Nat) (t rest : GoString) (b : Nat)
    (hb : b < 0x80) :
    utf8.DecodeRuneInString (s0 :: (t ++ b :: rest)) = utf8.DecodeRuneInString (s0 :: t) := by
  unfold utf8.DecodeRuneInString
  simp only
  by_cases h0 : s0 < utf8.RuneSelf
  · simp [h0]
  · simp only [h0, if_false]
    cases hf : utf8.first s0 with
    | none => rfl
    | some v =>
      obtain ⟨sz, lo, hi⟩ := v
      obtain ⟨hsz, hlo⟩ := first_spec _ _ _ _ hf
      have hblo : b < lo := by omega
      have hb80 : b < 128 := hb
      simp only
      rcases hsz with rfl | rfl | rfl
      · match t with
        | [] => simp [hblo]
        | a :: t1 =>
          simp
          split_ifs <;> first | rfl | omega
      · match t with
        | [] => simp [hblo]
        | [a] => simp [hb80]
        | a :: c :: t1 =>
          simp
          split_ifs <;> first | rfl | omega
      · match t with
        | [] => simp [hblo]
        | [a] => simp [hb80]
        | [a, c] => simp [hb80]
        | a :: c :: d :: t1 =>
          simp
          split_ifs <;> first | rfl | omega

theorem DecodeRuneInString_width (s0 : Nat) (t : GoString) :
    (utf8.DecodeRuneInString (s0 :: t)).2 - 1 ≤ t.length := by
  unfold utf8.DecodeRuneInString
  simp only
  by_cases h0 : s0 < utf8.RuneSelf
  · simp [h0]
  · simp only [h0, if_false]
    cases hf : utf8.first s0 with
    | none => simp
    | some v =>
      obtain ⟨sz, lo, hi⟩ := v
      obtain ⟨hsz, hlo⟩ := first_spec _ _ _ _ hf
      simp only [List.length_cons]
      split_ifs <;> simp only <;> omega

theorem rangeRunes_append_ascii (p rest : GoString) (b k : Nat) (hb : b < 0x80)
    (hk : k ≤ p.length) :
    utf8.rangeRunes (p ++ b :: rest) k = utf8.rangeRunes p k ++ utf8.rangeRunes (b :: rest) 0 := by
  induction p generalizing k with
  | nil =>
    have : k = 0 := by simpa using hk
    subst this
    simp [utf8.rangeRunes]
  | cons s0 t ih =>
    cases k with
    | zero =>
      rw [List.cons_append, utf8.rangeRunes, utf8.rangeRunes,
        DecodeRuneInString_append_ascii s0 t rest b hb,
        ih _ (DecodeRuneInString_width s0 t)]
      rfl
    | succ k =>
      rw [List.cons_append, utf8.rangeRunes, utf8.rangeRunes]
      exact ih k (by simpa using hk)

theorem rangeRunes_length_le (p : GoString) (k : Nat) :
    (utf8.rangeRunes p k).length ≤ p.length := by
  induction p generalizing k with
  | nil => simp [utf8.rangeRunes]
  | cons s0 t ih =>
    cases k with
    | zero =>
      rw [utf8.rangeRunes, List.length_cons, List.length_cons]
      exact Nat.succ_le_succ (ih _)
    | succ k =>
      rw [utf8.rangeRunes, List.length_cons]
      exact Nat.le_succ_of_le (ih _)

theorem EncodeRune_shape (r : Nat) :
    (r < 0x80 ∧ utf8.EncodeRune r = [r]) ∨
    (∃ x tl, utf8.EncodeRune r = x :: tl ∧ 0x80 ≤ x) := by
  unfold utf8.EncodeRune
  split_ifs with h1 h2 h3 h4
  · exact Or.inl ⟨h1, rfl⟩
  · exact Or.inr ⟨_, _, rfl, by omega⟩
  · exact Or.inr ⟨_, _, rfl, by omega⟩
  · exact Or.inr ⟨_, _, rfl, by omega⟩
  · exact Or.inr ⟨_, _, rfl, by omega⟩

/-- An encoded rune list whose first `m` bytes are ASCII and which has more
than `m` bytes has more than `m` runes. -/
theorem encoded_ascii_count (f : Nat → Nat) (L : List Nat) (m : Nat)
    (hm : m < (L.flatMap (fun c => utf8.EncodeRune (f c))).length)
    (hascii : ∀ x ∈ (L.flatMap (fun c => utf8.EncodeRune (f c))).take m, x < 0x80) :
    m < L.length := by
  induction L generalizing m with
  | nil => simp at hm
  | cons r L ih =>
    cases m with
    | zero => simp
    | succ m =>
      rw [List.flatMap_cons] at hm hascii
      rcases EncodeRune_shape (f r) with ⟨_, he⟩ | ⟨x, tl, he, hx⟩
      · rw [he] at hm hascii
        simp only [List.singleton_append, List.length_cons, List.take_succ_cons] at hm hascii
        have := ih m (by omega) (fun y hy => hascii y (by simp [hy]))
        simp only [List.length_cons]
        omega
      · rw [he] at hascii
        have := hascii x (by simp)
        omega

theorem ToUpper_eq_Map (s : GoString) : strings.ToUpper s = strings.Map unicode.ToUpper s := by
  unfold strings.ToUpper
  by_cases hall : s.all (fun c => decide (c < utf8.RuneSelf)) = true
  · have hp : ∀ b ∈ s, b < 0x80 := by simpa [utf8.RuneSelf] using hall
    have h := Map_ascii_append s [] hp
    rw [List.append_nil] at h
    rw [if_pos hall, h]
    simp [strings.Map, utf8.rangeRunes]
  · rw [if_neg hall]

/-- Upper-casing goes through an opening parenthesis: the text before it
and the text after it are upper-cased on their own. -/
theorem ToUpper_paren (p rest : GoString) :
    strings.ToUpper (p ++ 0x28 :: rest) = strings.ToUpper p ++ 0x28 :: strings.ToUpper rest := by
  have h1 : strings.Map unicode.ToUpper (p ++ 0x28 :: rest) =
      strings.Map unicode.ToUpper p ++ strings.Map unicode.ToUpper (0x28 :: rest) := by
    unfold strings.Map
    rw [rangeRunes_append_ascii p rest 0x28 0 (by decide) (Nat.zero_le _), List.flatMap_append]
  have h2 : strings.Map unicode.ToUpper (0x28 :: rest) =
      0x28 :: strings.Map unicode.ToUpper rest := by
    have h := Map_ascii_append [0x28] rest (by simp)
    simpa [strings.upperByte] using h
  rw [ToUpper_eq_Map, ToUpper_eq_Map p, ToUpper_eq_Map rest, h1, h2]

theorem textBefore_split (s : GoString) (c : Nat) (h : c ∈ s) :
    ∃ rest, s = textBefore s c ++ c :: rest := by
  induction s with
  | nil => simp at h
  | cons b t ih =>
    by_cases hb : b = c
    · subst hb
      exact ⟨t, by simp [textBefore]⟩
    · have ht : c ∈ t := by
        rcases List.mem_cons.mp h with e | e
        · exact absurd e.symm hb
        · exact e
      obtain ⟨rest, hrest⟩ := ih ht
      have htb : textBefore (b :: t) c = b :: textBefore t c := by simp [textBefore, hb]
      exact ⟨rest, by rw [htb, List.cons_append, ← hrest]⟩

theorem lookup_getD_mem (k : GoString) (l : List (GoString × Bool))
    (h : (l.lookup k).getD false = true) : k ∈ l.map Prod.fst := by
  induction l with
  | nil => simp at h
  | cons e l ih =>
    obtain ⟨a, v⟩ := e
    by_cases hk : k = a
    · simp [hk]
    · have hne : (k == a) = false := by simpa using hk
      simp only [List.lookup, hne] at h
      simp [ih h]

/-- A whitelist entry is ASCII and has no parenthesis. -/
theorem allowFunc_ascii (k : GoString) (h : allowFunc k = true) :
    0x28 ∉ k ∧ ∀ x ∈ k, x < 0x80 := by
  have hall : ∀ w ∈ dialectAllowFuncs.map Prod.fst, 0x28 ∉ w ∧ ∀ x ∈ w, x < 0x80 := by decide
  exact hall k (lookup_getD_mem k _ h)

/-- Where upper-casing makes a text longer, the first bytes of the result,
as many as the text had, are not a whitelist entry. -/
theorem not_allowFunc_take_ToUpper (p : GoString)
    (h : p.length < (strings.ToUpper p).length) :
    allowFunc ((strings.ToUpper p).take p.length) = false := by
  rw [Bool.eq_false_iff]
  intro ha
  have hascii := (allowFunc_ascii _ ha).2
  rw [ToUpper_eq_Map] at h hascii
  unfold strings.Map at h hascii
  have h1 := encoded_ascii_count unicode.ToUpper (utf8.rangeRunes p 0) p.length h hascii
  have h2 := rangeRunes_length_le p 0
  omega

theorem sliceTo_eq_some (x pre : GoString) (n : Nat) (h : sliceTo x n = some pre) :
    n ≤ x.length ∧ pre = x.take n := by
  unfold sliceTo at h
  by_cases hle : n ≤ x.length
  · rw [if_pos hle] at h
    exact ⟨hle, (Option.some.inj h).symm⟩
  · rw [if_neg hle] at h
    exact absurd h (by simp)

/-- The quoter on a name other than `*` with a non-empty text before its
first `(`: the name is returned unchanged exactly when the slice of the
upper-cased name is in range and is a whitelist entry. -/
theorem dialectQuoteStr_eq_self_iff_slice (s : GoString) (hstar : s ≠ str "*")
    (h1 : 0x28 ∈ s) (h0 : textBefore s 0x28 ≠ []) :
    dialectQuoteStr s = some s ↔
      ∃ pre, sliceTo (strings.ToUpper s) (textBefore s 0x28).length = some pre ∧
        allowFunc pre = true := by
  have hq := quoted_ne_self s
  have hpos : 0 < (textBefore s 0x28).length := List.length_pos.mpr h0
  have h2 : strings.IndexByte s 0x28 = ((textBefore s 0x28).length : Int) := by
    rcases IndexByte_spec s 0x28 with ⟨h, _⟩ | ⟨_, h⟩
    · exact absurd h1 h
    · exact h
  unfold dialectQuoteStr
  simp only [hstar, if_false, h2, gt_iff_lt, Nat.cast_pos, hpos, if_true, Int.toNat_ofNat]
  cases hs : sliceTo (strings.ToUpper s) (textBefore s 0x28).length with
  | none => simp
  | some pre =>
    by_cases hf : allowFunc pre = true
    · simp [hf]
    · have hq1 : ¬ dialectQuote ++ (s ++ dialectQuote) = s := by
        rw [← List.append_assoc]; exact hq
      simp [hf, hq1]

theorem dialectQuoteStr_of_not_pos (s : GoString) (hstar : s ≠ str "*")
    (h : ¬ strings.IndexByte s 0x28 > 0) :
    dialectQuoteStr s = some (dialectQuote ++ s ++ dialectQuote) := by
  unfold dialectQuoteStr
  simp only [hstar, if_false, h]
  rfl

/-- The quoter returns a name other than `*` unchanged exactly when the
text before its first `(` uppercases to a whitelist entry of the same byte
length. -/
theorem dialectQuoteStr_eq_self_iff (s : GoString) (hstar : s ≠ str "*") :
    dialectQuoteStr s = some s ↔
      (isFuncCallText s = true ∧
        (strings.ToUpper (textBefore s 0x28)).length = (textBefore s 0x28).length) := by
  have hq : ¬ some (dialectQuote ++ s ++ dialectQuote) = some s := by
    intro h
    exact quoted_ne_self s (Option.some.inj h)
  by_cases h1 : 0x28 ∈ s
  · by_cases h0 : textBefore s 0x28 = []
    · have hidx : ¬ strings.IndexByte s 0x28 > 0 := by
        rcases IndexByte_spec s 0x28 with ⟨_, h⟩ | ⟨_, h⟩
        · rw [h]; decide
        · rw [h, h0]; decide
      rw [dialectQuoteStr_of_not_pos s hstar hidx]
      have hnf : isFuncCallText s = false := by
        simp [isFuncCallText, h0, ToUpper_nil, allowFunc_nil]
      simp only [hq, hnf, Bool.false_eq_true, false_and]
    · rw [dialectQuoteStr_eq_self_iff_slice s hstar h1 h0]
      obtain ⟨rest, hrest⟩ := textBefore_split s 0x28 h1
      have hup : strings.ToUpper s =
          strings.ToUpper (textBefore s 0x28) ++ 0x28 :: strings.ToUpper rest := by
        conv_lhs => rw [hrest]
        exact ToUpper_paren _ _
      have hfc : isFuncCallText s = allowFunc (strings.ToUpper (textBefore s 0x28)) := by
        simp [isFuncCallText, h1]
      rw [hfc, hup]
      constructor
      · rintro ⟨pre, hs, ha⟩
        obtain ⟨hle, hpre⟩ := sliceTo_eq_some _ _ _ hs
        rcases Nat.lt_trichotomy (strings.ToUpper (textBefore s 0x28)).length
          (textBefore s 0x28).length with hlt | heq | hgt
        · exfalso
          have hmem : 0x28 ∈ pre := by
            rw [hpre, List.take_append_eq_append_take]
            have hk : (textBefore s 0x28).length - (strings.ToUpper (textBefore s 0x28)).length =
                ((textBefore s 0x28).length -
                  (strings.ToUpper (textBefore s 0x28)).length - 1) + 1 := by omega
            rw [hk, List.take_succ_cons]
            simp
          exact (allowFunc_ascii _ ha).1 hmem
        · rw [hpre, ← heq, List.take_left] at ha
          exact ⟨ha, heq⟩
        · exfalso
          have hna := not_allowFunc_take_ToUpper (textBefore s 0x28) hgt
          rw [hpre, List.take_append_of_le_length (Nat.le_of_lt hgt)] at ha
          rw [ha] at hna
          exact absurd hna (by simp)
      · rintro ⟨ha, heq⟩
        refine ⟨strings.ToUpper (textBefore s 0x28), ?_, ha⟩
        unfold sliceTo
        rw [if_pos (by rw [List.length_append]; omega), ← heq, List.take_left]
  · have hidx : ¬ strings.IndexByte s 0x28 > 0 := by
      rcases IndexByte_spec s 0x28 with ⟨_, h⟩ | ⟨hm, _⟩
      · rw [h]; decide
      · exact absurd hm h1
    rw [dialectQuoteStr_of_not_pos s hstar hidx]
    have hnf : isFuncCallText s = false := by
      simp [isFuncCallText, h1]
    simp only [hq, hnf, Bool.false_eq_true, false_and]

/-- The binder's test returns a non-empty string exactly when the string is
a whitelisted function call in the words of the specification. -/
theorem dialectStmtBindVarFunc_eq_self_iff (α : Type) (s : GoString) (hne : s ≠ []) :
    dialectStmtBindVarFunc (Value.string s : Value α) = some s ↔ isFuncCallText s = true := by
  rw [dialectStmtBindVarFunc_eq]
  simp only [isFuncCall, valueText, Option.some.injEq]
  by_cases hf : isFuncCallText s = true
  · simp [hf]
  · simp only [hf, if_false, Bool.false_eq_true, iff_false]
    exact fun h => hne h.symm

/-- C16 (as amended): for a non-empty string `s` other than `*`, unless the
text of `s` before its first `(` uppercases to a whitelist entry of another
byte length, the quoter returns `s` unchanged if and only if the binder's
test returns `s`. -/
theorem quoter_binder_agree (α : Type) (s : GoString) (hne : s ≠ [])
    (hstar : s ≠ str "*")
    (hlen : isFuncCallText s = true →
      (strings.ToUpper (textBefore s 0x28)).length = (textBefore s 0x28).length) :
    dialectQuoteStr s = some s ↔
      dialectStmtBindVarFunc (Value.string s : Value α) = some s := by
  rw [dialectQuoteStr_eq_self_iff s hstar, dialectStmtBindVarFunc_eq_self_iff α s hne]
  exact ⟨fun h => h.1, fun h => ⟨h, hlen h⟩⟩

/-- The byte-length condition is exact: for a non-empty string other than
`*` the quoter and the binder's test agree if and only if the text before
the first `(` does not uppercase to a whitelist entry of another byte
length. -/
theorem quoter_binder_condition_exact (α : Type) (s : GoString) (hne : s ≠ [])
    (hstar : s ≠ str "*") :
    (dialectQuoteStr s = some s ↔
        dialectStmtBindVarFunc (Value.string s : Value α) = some s) ↔
      (isFuncCallText s = true →
        (strings.ToUpper (textBefore s 0x28)).length = (textBefore s 0x28).length) := by
  rw [dialectQuoteStr_eq_self_iff s hstar, dialectStmtBindVarFunc_eq_self_iff α s hne]
  constructor
  · intro h hf
    exact (h.mpr hf).2
  · intro h
    exact ⟨fun h1 => h1.1, fun h1 => ⟨h1, h h1⟩⟩

/-- C16 at `count(x)` (accepted by both tests), `foo(x)` and `größe`
(rejected by both) and `é(x)`, whose text before `(` is not ASCII (rejected
by both). -/
theorem quoter_binder_agree_witness :
    (dialectQuoteStr (str "count(x)") = some (str "count(x)") ↔
      dialectStmtBindVarFunc (Value.string (str "count(x)") : Value Unit) =
        some (str "count(x)")) ∧
    (dialectQuoteStr (str "foo(x)") = some (str "foo(x)") ↔
      dialectStmtBindVarFunc (Value.string (str "foo(x)") : Value Unit) =
        some (str "foo(x)")) ∧
    (dialectQuoteStr (str "é(x)") = some (str "é(x)") ↔
      dialectStmtBindVarFunc (Value.string (str "é(x)") : Value Unit) =
        some (str "é(x)")) ∧
    (dialectQuoteStr (str "größe") = some (str "größe") ↔
      dialectStmtBindVarFunc (Value.string (str "größe") : Value Unit) =
        some (str "größe")) :=
  ⟨quoter_binder_agree Unit (str "count(x)") (by decide) (by decide) (by decide),
   quoter_binder_agree Unit (str "foo(x)") (by decide) (by decide) (by decide),
   quoter_binder_agree Unit (str "é(x)") (by decide) (by decide) (by decide),
   quoter_binder_agree Unit (str "größe") (by decide) (by decide) (by decide)⟩

/-- C16 as stated fails at the empty string, for which the binder's test
returns the empty string, equal to its argument, while the quoter returns
two quote characters; it also fails at `mın(x)` (with U+0131), whose text
before `(` has four bytes and uppercases to the three bytes of `MIN`: the
binder's test returns the string and the quoter puts it in quotes. -/
theorem quoter_binder_agree_counterexample :
    str "" ≠ str "*" ∧
    dialectStmtBindVarFunc (Value.string (str "") : Value Unit) = some (str "") ∧
    dialectQuoteStr (str "") = some (str "\"\"") ∧
    str "\"\"" ≠ str "" ∧
    str "mın(x)" ≠ str "*" ∧
    isFuncCallText (str "mın(x)") = true ∧
    (textBefore (str "mın(x)") 0x28).length = 4 ∧
    (strings.ToUpper (textBefore (str "mın(x)") 0x28)).length = 3 ∧
    dialectStmtBindVarFunc (Value.string (str "mın(x)") : Value Unit) = some (str "mın(x)") ∧
    dialectQuoteStr (str "mın(x)") ≠ some (str "mın(x)") := by
  decide

/-! ## Placeholder binder: values and marker counts -/

theorem loopSql_congr {α : Type} (vars1 vars2 : List (Value α))
    (h : List.Forall₂ sqlAlike vars1 vars2) (num : Nat) (sql : GoString) :
    loopSql vars1 num sql = loopSql vars2 num sql := by
  induction h generalizing num sql with
  | nil => rfl
  | @cons a b l1 l2 hab _ ih =>
    have ht : stepText num a = stepText num b := by
      rcases hab with ⟨hf, he⟩ | ⟨ha, hb⟩
      · rw [he]
      · simp [stepText, ha, hb]
    have hn : stepNum num a = stepNum num b := by
      rcases hab with ⟨hf, he⟩ | ⟨ha, hb⟩
      · rw [he]
      · simp [stepNum, ha, hb]
    simp only [loopSql, ht, hn]
    exact ih _ _

/-- C17: two value lists that agree position by position, in that both
values are the same whitelisted function-call string or both are values
that are not function calls, give the same statement for every template;
the values that are not function calls do not reach the statement. -/
theorem dialectStmtBindVar_sql_alike {α : Type} (sql : GoString)
    (vars1 vars2 : List (Value α)) (h : List.Forall₂ sqlAlike vars1 vars2) :
    vars1.length = vars2.length ∧
    (dialectStmtBindVar sql vars1).isSome = true ∧
    (dialectStmtBindVar sql vars1).map Prod.fst = (dialectStmtBindVar sql vars2).map Prod.fst := by
  refine ⟨h.length_eq, ?_, ?_⟩
  · rw [dialectStmtBindVar_eq]
    rfl
  · rw [dialectStmtBindVar_eq, dialectStmtBindVar_eq, Option.map_some', Option.map_some',
      loopSql_congr vars1 vars2 h]

/-- C17 at `"a = ? AND b = ?"`: the plain values `5` and `77` give the same
statement next to the same function call. -/
theorem dialectStmtBindVar_sql_alike_witness :
    [Value.other 5, Value.string (str "NEXTVAL(seq)")].length =
      [Value.other 77, Value.string (str "NEXTVAL(seq)")].length ∧
    (dialectStmtBindVar (str "a = ? AND b = ?")
      [Value.other 5, Value.string (str "NEXTVAL(seq)")]).isSome = true ∧
    (dialectStmtBindVar (str "a = ? AND b = ?")
        [Value.other 5, Value.string (str "NEXTVAL(seq)")]).map Prod.fst =
      (dialectStmtBindVar (str "a = ? AND b = ?")
        [Value.other 77, Value.string (str "NEXTVAL(seq)")]).map Prod.fst :=
  dialectStmtBindVar_sql_alike (str "a = ? AND b = ?")
    [Value.other 5, Value.string (str "NEXTVAL(seq)")]
    [Value.other 77, Value.string (str "NEXTVAL(seq)")]
    (List.Forall₂.cons (Or.inr ⟨rfl, rfl⟩)
      (List.Forall₂.cons (Or.inl ⟨by decide, rfl⟩) List.Forall₂.nil))

theorem Replace1_of_not_mem (s new_ : GoString) (old : Nat) (h : old ∉ s) :
    strings.Replace1 s old new_ = s := by
  have h1 := Replace1_append_of_not_mem s [] new_ old h
  simpa [strings.Replace1] using h1

theorem count_Replace1 (s new_ : GoString) (old : Nat) (h : old ∉ new_) :
    (strings.Replace1 s old new_).count old = s.count old - 1 := by
  induction s with
  | nil => simp [strings.Replace1]
  | cons b t ih =>
    by_cases hb : b = old
    · subst hb
      simp [strings.Replace1, List.count_append, List.count_eq_zero_of_not_mem h]
    · have hb1 : (b == old) = false := by simpa using hb
      simp only [strings.Replace1, hb, if_false, List.count_cons, hb1, ih]
      simp

theorem loopSql_of_not_mem {α : Type} (vars : List (Value α)) (num : Nat) (sql : GoString)
    (h : 0x3F ∉ sql) : loopSql vars num sql = sql := by
  induction vars generalizing num with
  | nil => rfl
  | cons v vars ih =>
    simp only [loopSql]
    rw [Replace1_of_not_mem _ _ _ h]
    exact ih _

theorem loopSql_count {α : Type} (vars : List (Value α)) (num : Nat) (sql : GoString)
    (hfun : ∀ v ∈ vars, isFuncCall v = true → 0x3F ∉ valueText v) :
    (loopSql vars num sql).count 0x3F = sql.count 0x3F - vars.length := by
  induction vars generalizing num sql with
  | nil => simp [loopSql]
  | cons v vars ih =>
    have hv : 0x3F ∉ stepText num v := stepText_not_mem num v (hfun v (by simp))
    simp only [loopSql, List.length_cons]
    rw [ih _ _ (fun u hu => hfun u (by simp [hu])), count_Replace1 _ _ _ hv]
    omega

theorem loopSql_append {α : Type} (vars extra : List (Value α)) (num : Nat) (sql : GoString) :
    ∃ num1, loopSql (vars ++ extra) num sql = loopSql extra num1 (loopSql vars num sql) := by
  induction vars generalizing num sql with
  | nil => exact ⟨num, rfl⟩
  | cons v vars ih =>
    simp only [List.cons_append, loopSql]
    exact ih _ _

/-- C18: for a template with `m` markers and `k` bind values in which no
whitelisted function-call string contains `?`, `dialectStmtBindVar` returns
(it never panics) a statement with exactly `m - k` markers, none when
`k ≥ m`, together with the values that are not function calls; once no
marker is left, further values, whatever they are, leave the statement as it
is. -/
theorem dialectStmtBindVar_marker_count {α : Type} (sql : GoString) (vars : List (Value α))
    (hfun : ∀ v ∈ vars, isFuncCall v = true → 0x3F ∉ valueText v) :
    ∃ out, dialectStmtBindVar sql vars = some (out, vars.filter (fun w => !isFuncCall w)) ∧
      out.count 0x3F = sql.count 0x3F - vars.length ∧
      ∀ extra : List (Value α), sql.count 0x3F ≤ vars.length →
        dialectStmtBindVar sql (vars ++ extra) =
          some (out, (vars ++ extra).filter (fun w => !isFuncCall w)) := by
  refine ⟨loopSql vars 0 sql, dialectStmtBindVar_eq sql vars, loopSql_count vars 0 sql hfun, ?_⟩
  intro extra hle
  have hcount : (loopSql vars 0 sql).count 0x3F = 0 := by
    rw [loopSql_count vars 0 sql hfun]
    omega
  have hnot : 0x3F ∉ loopSql vars 0 sql := List.count_eq_zero.mp hcount
  obtain ⟨num1, happ⟩ := loopSql_append vars extra 0 sql
  rw [dialectStmtBindVar_eq, happ, loopSql_of_not_mem extra num1 _ hnot]

/-- C18 at the template `"a = ? AND b = ? AND c = ?"` (three markers) with
one value: two markers are left. -/
theorem dialectStmtBindVar_marker_count_witness :
    ∃ out, dialectStmtBindVar (str "a = ? AND b = ? AND c = ?") [(Value.other 5 : Value Nat)] =
        some (out, [Value.other 5]) ∧
      out.count 0x3F = 3 - 1 ∧
      ∀ extra : List (Value Nat), (str "a = ? AND b = ? AND c = ?").count 0x3F ≤ 1 →
        dialectStmtBindVar (str "a = ? AND b = ? AND c = ?") ([Value.other 5] ++ extra) =
          some (out, ([Value.other 5] ++ extra).filter (fun w => !isFuncCall w)) :=
  dialectStmtBindVar_marker_count (str "a = ? AND b = ? AND c = ?") [Value.other 5]
    (by decide)

/-- The binder at mismatched counts: three markers with one value, and one
marker with three values. -/
theorem dialectStmtBindVar_mismatch_examples :
    dialectStmtBindVar (str "a = ? AND b = ? AND c = ?") [(Value.other 5 : Value Nat)] =
      some (str "a = $1 AND b = ? AND c = ?", [Value.other 5]) ∧
    dialectStmtBindVar (str "a = ?")
        [(Value.other 5 : Value Nat), Value.string (str "MAX(x)"), Value.other 6] =
      some (str "a = $1", [Value.other 5, Value.other 6]) := by
  decide
